import Mathlib

/-!
Shallow embedding of the jsoncons CBOR streaming parser
(`src/include/jsoncons_ext/cbor/cbor_parser.hpp`, class `basic_cbor_parser`).

Modelling conventions:
* The byte source (`Src`) is the list of remaining input bytes.  `peek` is
  `List.head?`, `get`/`ignore` drop from the front, and a bulk read takes a
  prefix.  As in the C++ source every byte is consumed through a `uint8_t`
  cast, so every read applies `% 256`.
* The visitor is instantiated with an event recorder whose callbacks always
  return `true` (continue); `more_ = visitor.xxx(...)` therefore sets
  `more := true` and appends the event.  `visitor.flush()` returns `void`
  and leaves `more_` untouched.
* `std::size_t` and `stringref_map::size_type` are 64-bit, as on the
  platforms the library targets; the source's narrowing checks are kept.
* `text_buffer_`, `bytes_buffer_`, `typed_array_` and `shape_` are scratch
  buffers that the source clears before each use; they are modelled as the
  values they hold, threaded locally.
* Recursion in the source (the `parse` loop, tag scanning, indefinite-length
  chunk iteration, and the nested parser spawned by `read_name`) is modelled
  with an explicit fuel argument; every theorem quantifies over, or supplies,
  enough fuel.
-/

namespace JsonconsCbor

/-- Big-endian byte composition, as done by `jsoncons::detail::big_to_native`. -/
def beNat (bs : List Nat) : Nat :=
  bs.foldl (fun acc b => acc * 256 + b % 256) 0

/-- `static_cast<int64_t>` of a `uint64_t`: two's-complement wrap. -/
def toInt64 (x : Nat) : Int :=
  if x < 2 ^ 63 then (x : Int) else (x : Int) - 2 ^ 64

/-- `static_cast<uint64_t>` of an `int64_t` (used on negated mantissas). -/
def toUint64 (x : Int) : Nat :=
  (x % 2 ^ 64).toNat

/-- Decimal digits (ASCII codes), produced most significant first; the fuel
argument bounds the number of digits. -/
def natToDecimalAux : Nat → Nat → List Nat
  | 0, _ => []
  | fuel + 1, n => if n = 0 then [] else natToDecimalAux fuel (n / 10) ++ [48 + n % 10]

/-- Decimal rendering of a `uint64_t` (`jsoncons::detail::write_integer`):
values are below `2^64 < 10^21`, so 21 digits of fuel always suffice. -/
def natToDecimal (n : Nat) : List Nat :=
  if n = 0 then [48] else natToDecimalAux 21 n

/-- Decimal rendering of an `int64_t` (`jsoncons::detail::write_integer`). -/
def intToDecimal (v : Int) : List Nat :=
  if v < 0 then 45 :: natToDecimal (toUint64 (-v)) else natToDecimal v.toNat

/-- Lowercase hex digits, most significant first, with a fuel bound. -/
def natToHexAux : Nat → Nat → List Nat
  | 0, _ => []
  | fuel + 1, n =>
    if n = 0 then []
    else natToHexAux fuel (n / 16) ++ [if n % 16 < 10 then 48 + n % 16 else 87 + n % 16]

/-- Lowercase hex rendering of a `uint64_t`
(`jsoncons::detail::uinteger_to_hex_string`); 16 hex digits of fuel suffice. -/
def natToHex (n : Nat) : List Nat :=
  if n = 0 then [48] else natToHexAux 16 n

/-- `bignum(sign, data, size).dump(s)`: decimal rendering of a big-endian
magnitude with a leading minus sign when the sign is negative.  A magnitude
of `L` bytes is below `256^L < 10^(3*L)`, so `3*L + 1` digits suffice. -/
def bignumDumpDec (sign : Int) (v : List Nat) : List Nat :=
  let mag := beNat v
  let digits := if mag = 0 then [48] else natToDecimalAux (3 * v.length + 1) mag
  if sign < 0 ∧ mag ≠ 0 then 45 :: digits else digits

/-- `bignum(sign, data, size).dump_hex_string(s)`: lowercase hex rendering of
a big-endian magnitude, minus-prefixed when negative. -/
def bignumDumpHex (sign : Int) (v : List Nat) : List Nat :=
  let mag := beNat v
  let digits := if mag = 0 then [48] else natToHexAux (2 * v.length + 1) mag
  if sign < 0 ∧ mag ≠ 0 then 45 :: digits else digits

/-- `static_cast<int>` of an `int64_t` (32-bit two's-complement wrap). -/
def toInt32 (x : Int) : Int :=
  (x + 2 ^ 31) % 2 ^ 32 - 2 ^ 31

/-- Modelled from the spec: `jsoncons::cbor::detail::min_length_for_stringref`
lives in `cbor_detail.hpp`, which is not among the provided sources.  The spec
fixes `min_len(0..23)=3`, `min_len(24..255)=4`, `min_len(256..65535)=5` and
"higher thresholds for larger indices" (RFC 8742 uses 7 and then 11). -/
def min_length_for_stringref (n : Nat) : Nat :=
  if n ≤ 23 then 3
  else if n ≤ 255 then 4
  else if n ≤ 65535 then 5
  else if n ≤ 4294967295 then 7
  else 11

/-- Modelled from the spec: `unicons::validate` (the UTF-8 validator) is not
among the provided sources; the spec requires standard RFC 3629 UTF-8
validation, embedded here over raw byte lists. -/
def validUtf8 : List Nat → Bool
  | [] => true
  | b :: r =>
    if b < 0x80 then validUtf8 r
    else if b < 0xC2 then false
    else if b < 0xE0 then
      match r with
      | c :: r2 => decide (0x80 ≤ c ∧ c < 0xC0) && validUtf8 r2
      | [] => false
    else if b < 0xF0 then
      match r with
      | c :: d :: r2 =>
        let lo := if b = 0xE0 then 0xA0 else 0x80
        let hi := if b = 0xED then 0xA0 else 0xC0
        decide (lo ≤ c ∧ c < hi) && decide (0x80 ≤ d ∧ d < 0xC0) && validUtf8 r2
      | _ => false
    else if b < 0xF5 then
      match r with
      | c :: d :: e :: r2 =>
        let lo := if b = 0xF0 then 0x90 else 0x80
        let hi := if b = 0xF4 then 0x90 else 0xC0
        decide (lo ≤ c ∧ c < hi) && decide (0x80 ≤ d ∧ d < 0xC0) &&
          decide (0x80 ≤ e ∧ e < 0xC0) && validUtf8 r2
      | _ => false
    else false

/-- Modelled from the spec: `jsoncons::detail::encode_base64url` is not among
the provided sources; RFC 4648 §5 (URL-safe alphabet, no padding, as in the
library). Index -> ASCII code of the base64url alphabet. -/
def b64urlChar (i : Nat) : Nat :=
  if i < 26 then 65 + i
  else if i < 52 then 97 + (i - 26)
  else if i < 62 then 48 + (i - 52)
  else if i = 62 then 45
  else 95

/-- Modelled from the spec: base64url encoding of a byte list (no padding). -/
def encode_base64url : List Nat → List Nat
  | b0 :: b1 :: b2 :: rest =>
    let n := (b0 % 256) * 65536 + (b1 % 256) * 256 + b2 % 256
    b64urlChar (n / 262144) :: b64urlChar (n / 4096 % 64) ::
      b64urlChar (n / 64 % 64) :: b64urlChar (n % 64) :: encode_base64url rest
  | [b0, b1] =>
    let n := (b0 % 256) * 1024 + (b1 % 256) * 4
    [b64urlChar (n / 4096), b64urlChar (n / 64 % 64), b64urlChar (n % 64)]
  | [b0] =>
    let n := (b0 % 256) * 16
    [b64urlChar (n / 64), b64urlChar (n % 64)]
  | [] => []

/-- Modelled from the spec: `jsoncons::detail::prettify_string` is not among
the provided sources.  Per the spec's bigdec description: exponent ≥ 0 shifts
the digits left by `10^exponent`; a negative exponent splits into integer and
fraction parts ("0." padded with zeros when the digits are too few). -/
def prettify (digits : List Nat) (exp : Int) : List Nat :=
  if 0 ≤ exp then digits ++ List.replicate exp.toNat 48
  else
    let k := (-exp).toNat
    if digits.length ≤ k then
      [48, 46] ++ List.replicate (k - digits.length) 48 ++ digits
    else
      digits.take (digits.length - k) ++ [46] ++ digits.drop (digits.length - k)

/-- `jsoncons::cbor::cbor_errc` values the parser can set.
`model_unreachable` is not a source error code: it marks the model's image
of `JSONCONS_UNREACHABLE()` (see `read_item`), reachable here only when the
recursion fuel runs out inside the tag-scanning loop, a state the source's
unbounded loop cannot be in. -/
inductive CborErrc where
  | unexpected_eof
  | unknown_type
  | invalid_utf8_text_string
  | number_too_large
  | max_nesting_depth_exceeded
  | stringref_too_large
  | invalid_bigdec
  | invalid_bigfloat
  | model_unreachable
deriving DecidableEq, Repr

/-- The `jsoncons::semantic_tag` values produced by the CBOR parser. -/
inductive SemanticTag where
  | none
  | undefined
  | timestamp
  | bigint
  | bigdec
  | bigfloat
  | datetime
  | uri
  | base64url
  | base64
  | base16
  | clamped
  | multi_dim_row_major
  | multi_dim_column_major
deriving DecidableEq, Repr

/-- One visitor callback, with its arguments.  String and key payloads are
raw byte lists; `doubleValue` carries the width and big-endian bit pattern of
the float that was read (IEEE decoding is outside the claims);
`typedArrayValue` carries the typed-array tag and raw payload bytes (element
reinterpretation and the host-endian swap happen on the visitor's side of
the boundary). -/
inductive Event where
  | uint64Value (v : Nat) (tag : SemanticTag)
  | int64Value (v : Int) (tag : SemanticTag)
  | halfValue (v : Nat) (tag : SemanticTag)
  | doubleValue (width : Nat) (bits : Nat) (tag : SemanticTag)
  | boolValue (b : Bool) (tag : SemanticTag)
  | nullValue (tag : SemanticTag)
  | stringValue (s : List Nat) (tag : SemanticTag)
  | byteStringValue (bs : List Nat) (tag : SemanticTag)
  | typedArrayValue (itemTag : Nat) (bs : List Nat) (tag : SemanticTag)
  | key (s : List Nat)
  | beginArray (len : Option Nat) (tag : SemanticTag)
  | endArray
  | beginObject (len : Option Nat) (tag : SemanticTag)
  | endObject
  | beginMultiDim (shape : List Nat) (tag : SemanticTag)
  | endMultiDim
  | flush
deriving DecidableEq, Repr

/-- `enum class parse_mode`. -/
inductive ParseMode where
  | root
  | before_done
  | array
  | indefinite_array
  | map_key
  | map_value
  | indefinite_map_key
  | indefinite_map_value
  | multi_dim
deriving DecidableEq, Repr

/-- `struct parse_state`. -/
structure Frame where
  mode : ParseMode
  length : Nat
  index : Nat
  pop_stringref_map_stack : Bool
deriving DecidableEq, Repr

/-- `struct mapped_string`: a stringref-table entry is either a text string
or a byte string. -/
inductive MappedString where
  | text (s : List Nat)
  | bytes (bs : List Nat)
deriving DecidableEq, Repr

/-- The state of `basic_cbor_parser` together with the source (remaining
input bytes), the recorded visitor events, and the `error_code` out-parameter
of the current `parse` call.  The frame stack and stringref-table stack have
their top at the head. -/
structure Machine where
  strefFlag : Bool
  strefNsFlag : Bool
  itemTagFlag : Bool
  itemTagVal : Nat
  more : Bool
  done : Bool
  stack : List Frame
  strefStack : List (List MappedString)
  depth : Int
  maxDepth : Int
  input : List Nat
  events : List Event
  ec : Option CborErrc
deriving DecidableEq, Repr

/-- A freshly constructed parser over the given bytes, with the configured
`max_nesting_depth` (the option's default is 1024). -/
def initMachine (maxDepth : Int) (input : List Nat) : Machine :=
  { strefFlag := false
    strefNsFlag := false
    itemTagFlag := false
    itemTagVal := 0
    more := true
    done := false
    stack := [⟨ParseMode.root, 0, 0, false⟩]
    strefStack := []
    depth := 0
    maxDepth := maxDepth
    input := input
    events := []
    ec := none }

/-- `reset()`: clears the frame stack, pushes a fresh root frame, and resets
`more_`/`done_` — and touches nothing else. -/
def resetMachine (m : Machine) : Machine :=
  { m with stack := [⟨ParseMode.root, 0, 0, false⟩], more := true, done := false }

/-- `more_ = visitor.xxx(...)`: the recording visitor returns `true`. -/
def emit (m : Machine) (e : Event) : Machine :=
  { m with events := m.events ++ [e], more := true }

/-- `visitor.flush()` returns `void`; `more_` is untouched. -/
def emitFlush (m : Machine) : Machine :=
  { m with events := m.events ++ [Event.flush] }

/-- Set the error code and latch `more_ = false` (the usual error pattern). -/
def errMore (m : Machine) (e : CborErrc) : Machine :=
  { m with ec := some e, more := false }

/-- Line 614: `other_tags_[item_tag] = false;`. -/
def clearItemTag (m : Machine) : Machine :=
  { m with itemTagFlag := false }

/-- `get_major_type((uint8_t)c)`. -/
def majorOf (c : Nat) : Nat := c % 256 / 32

/-- `get_additional_information_value((uint8_t)c)`. -/
def infoOf (c : Nat) : Nat := c % 256 % 32

/-- `get_uint64_value(ec)`: consumes the head byte and its 0/1/2/4/8-byte
big-endian argument.  For the 2/4/8-byte forms the source does not check the
bulk read's count; a short read leaves the tail of the stack buffer
indeterminate (modelled as zero) and reports no error. -/
def get_uint64_value (m : Machine) : Nat × Machine :=
  match m.input with
  | [] => (0, errMore m CborErrc.unexpected_eof)
  | t :: rest =>
    let info := infoOf t
    if info < 24 then (info, { m with input := rest })
    else if info = 24 then
      match rest with
      | [] => (0, errMore { m with input := rest } CborErrc.unexpected_eof)
      | c :: rest2 => (c % 256, { m with input := rest2 })
    else if info = 25 then
      (beNat (rest.take 2) * 256 ^ (2 - (rest.take 2).length), { m with input := rest.drop 2 })
    else if info = 26 then
      (beNat (rest.take 4) * 256 ^ (4 - (rest.take 4).length), { m with input := rest.drop 4 })
    else if info = 27 then
      (beNat (rest.take 8) * 256 ^ (8 - (rest.take 8).length), { m with input := rest.drop 8 })
    else (0, { m with input := rest })

/-- `get_int64_value(ec)`.  Major type 1 decodes `-1 - argument`; the 8-byte
form wraps the argument through `static_cast<int64_t>` (no range error); a
short bulk read returns the still-zero result with no error code.  An
unsigned (major 0) head is capped at `int64` max with the overflow branch
left empty in the source. -/
def get_int64_value (m : Machine) : Int × Machine :=
  match m.input with
  | [] => (0, errMore m CborErrc.unexpected_eof)
  | t :: rest =>
    let info := infoOf t
    if majorOf t = 1 then
      if info < 24 then (-1 - (info : Int), { m with input := rest })
      else if info = 24 then
        match rest with
        | [] => (0, errMore { m with input := rest } CborErrc.unexpected_eof)
        | c :: rest2 => (-1 - ((c % 256 : Nat) : Int), { m with input := rest2 })
      else if info = 25 then
        if rest.length < 2 then (0, { m with input := rest.drop 2 })
        else (-1 - (beNat (rest.take 2) : Int), { m with input := rest.drop 2 })
      else if info = 26 then
        if rest.length < 4 then (0, { m with input := rest.drop 4 })
        else (-1 - (beNat (rest.take 4) : Int), { m with input := rest.drop 4 })
      else if info = 27 then
        if rest.length < 8 then (0, { m with input := rest.drop 8 })
        else (-1 - toInt64 (beNat (rest.take 8)), { m with input := rest.drop 8 })
      else (0, { m with input := rest })
    else if majorOf t = 0 then
      let (x, m1) := get_uint64_value m
      if m1.ec.isSome then (0, m1)
      else if x ≤ 2 ^ 63 - 1 then ((x : Int), m1)
      else (0, m1)
    else (0, m)

/-- `get_double(ec)`: consumes the head and the 4- or 8-byte payload,
returning its width and big-endian bit pattern.  The source's post-read
`source_.eof()` check is modelled as a short-read check. -/
def get_double (m : Machine) : (Nat × Nat) × Machine :=
  match m.input with
  | [] => ((0, 0), errMore m CborErrc.unexpected_eof)
  | t :: rest =>
    let info := infoOf t
    if info = 26 then
      if rest.length < 4 then ((0, 0), errMore { m with input := [] } CborErrc.unexpected_eof)
      else ((4, beNat (rest.take 4)), { m with input := rest.drop 4 })
    else if info = 27 then
      if rest.length < 8 then ((0, 0), errMore { m with input := [] } CborErrc.unexpected_eof)
      else ((8, beNat (rest.take 8)), { m with input := rest.drop 8 })
    else ((0, 0), { m with input := rest })

/-- `get_size(ec)`: a `uint64_t` argument narrowed to `std::size_t`
(64 bits in this model, so the narrowing check cannot fire). -/
def get_size (m : Machine) : Nat × Machine :=
  let (u, m1) := get_uint64_value m
  if m1.ec.isSome then (0, m1)
  else
    let len := u % 2 ^ 64
    if len ≠ u then (len, errMore m1 CborErrc.number_too_large)
    else (len, m1)

/-- Phases of `iterate_string_chunks`: `top` decodes one (possibly
indefinite-length) string head, `loop` is the inner `while (!done)` scan of
an indefinite-length string's chunks. -/
inductive ChunkPhase where
  | top
  | loop
deriving DecidableEq, Repr

/-- `iterate_string_chunks(func, ec)`.  `acc` is the buffer the callback
appends to; the returned `Bool` is the `more` local captured by
`read_byte_string`'s callback (set to `false` on a short chunk read; the
text-string callback has no such local, and its caller ignores the value).
On a short read the callback sets `unexpected_eof` and returns `false`,
which line 1008 assigns to the member `more_`. -/
def iterChunks : Nat → ChunkPhase → Machine → List Nat → Bool → List Nat × Bool × Machine
  | 0, _, m, acc, lk => (acc, lk, m)
  | fuel + 1, ChunkPhase.top, m, acc, lk =>
    match m.input with
    | [] => (acc, lk, errMore m CborErrc.unexpected_eof)
    | c :: rest =>
      if infoOf c = 31 then
        iterChunks fuel ChunkPhase.loop { m with input := rest } acc lk
      else
        let (len, m1) := get_size m
        if m1.ec.isSome then (acc, lk, m1)
        else
          let taken := (m1.input.take len).map (fun b => b % 256)
          if taken.length = len then
            (acc ++ taken, lk, { m1 with input := m1.input.drop len, more := true })
          else
            (acc ++ taken, false,
              errMore { m1 with input := m1.input.drop len } CborErrc.unexpected_eof)
  | fuel + 1, ChunkPhase.loop, m, acc, lk =>
    match m.input with
    | [] => (acc, lk, errMore m CborErrc.unexpected_eof)
    | c :: rest =>
      if c % 256 = 0xff then (acc, lk, { m with input := rest })
      else
        let (acc1, lk1, m1) := iterChunks fuel ChunkPhase.top m acc lk
        if m1.ec.isSome then (acc1, lk1, m1)
        else iterChunks fuel ChunkPhase.loop m1 acc1 lk1

/-- `read_text_string(s, ec)`: the caller clears `s` beforehand, so the
assembled bytes are returned.  Note that the append to the innermost
stringref table is not guarded by an error check in the source. -/
def read_text_string (fuel : Nat) (m : Machine) : List Nat × Machine :=
  match m.input with
  | [] => ([], errMore m CborErrc.unexpected_eof)
  | c :: _ =>
    let info := infoOf c
    let (s, _, m1) := iterChunks fuel ChunkPhase.top m [] true
    match m1.strefStack with
    | [] => (s, m1)
    | tbl :: tbls =>
      if info ≠ 31 ∧ min_length_for_stringref tbl.length ≤ s.length then
        (s, { m1 with strefStack := (tbl ++ [MappedString.text s]) :: tbls })
      else (s, m1)

/-- `read_byte_string(v, ec)`: returns the function's local `more` flag
together with the assembled bytes.  In the definite-length branch a short
read sets `ec` and the local flag only; the member `more_` is left alone. -/
def read_byte_string (fuel : Nat) (m : Machine) : Bool × List Nat × Machine :=
  match m.input with
  | [] => (false, [], { m with ec := some CborErrc.unexpected_eof })
  | c :: _ =>
    let info := infoOf c
    if info = 31 then
      let (v, lk, m1) := iterChunks fuel ChunkPhase.top m [] true
      (lk, v, m1)
    else
      let (len, m1) := get_size m
      if m1.ec.isSome then (false, [], m1)
      else
        let taken := (m1.input.take len).map (fun b => b % 256)
        if taken.length = len then
          let m2 := { m1 with input := m1.input.drop len }
          match m2.strefStack with
          | [] => (true, taken, m2)
          | tbl :: tbls =>
            if min_length_for_stringref tbl.length ≤ taken.length then
              (true, taken, { m2 with strefStack := (tbl ++ [MappedString.bytes taken]) :: tbls })
            else (true, taken, m2)
        else
          (false, taken,
            { m1 with input := m1.input.drop len, ec := some CborErrc.unexpected_eof })

/-- `handle_string(visitor, v, ec)`: selects the semantic tag from the
pending `item_tag` and emits a string value. -/
def handle_string (m : Machine) (v : List Nat) : Machine :=
  let tag :=
    if m.itemTagFlag then
      if m.itemTagVal = 0 then SemanticTag.datetime
      else if m.itemTagVal = 32 then SemanticTag.uri
      else if m.itemTagVal = 33 then SemanticTag.base64url
      else if m.itemTagVal = 34 then SemanticTag.base64
      else SemanticTag.none
    else SemanticTag.none
  let m1 := if m.itemTagFlag then clearItemTag m else m
  emit m1 (Event.stringValue v tag)

/-- The typed-array tags handled by `write_byte_string` (0x4c and 0x53 are
absent both here and in `read_tags`). -/
def typedArrayTags : List Nat :=
  [0x40, 0x41, 0x42, 0x43, 0x44, 0x45, 0x46, 0x47, 0x48, 0x49, 0x4a, 0x4b,
   0x4d, 0x4e, 0x4f, 0x50, 0x51, 0x52, 0x54, 0x55, 0x56]

/-- `write_byte_string(read, visitor, ec)`: dispatch on the pending
`item_tag`.  `readFn` abstracts the two `Read` functors (from the source or
from a stringref-table buffer).  Error paths in the tagged branches latch
`more_ = false` and skip the final `other_tags_[item_tag] = false`; the
untagged branch returns on error without touching `more_`. -/
def write_byte_string (readFn : Machine → List Nat × Machine) (m : Machine) : Machine :=
  if m.itemTagFlag then
    if m.itemTagVal = 2 then
      let (v, m1) := readFn m
      if m1.ec.isSome then { m1 with more := false }
      else clearItemTag (emit m1 (Event.stringValue (bignumDumpDec 1 v) SemanticTag.bigint))
    else if m.itemTagVal = 3 then
      let (v, m1) := readFn m
      if m1.ec.isSome then { m1 with more := false }
      else clearItemTag (emit m1 (Event.stringValue (bignumDumpDec (-1) v) SemanticTag.bigint))
    else if m.itemTagVal = 0x15 then
      let (v, m1) := readFn m
      if m1.ec.isSome then { m1 with more := false }
      else clearItemTag (emit m1 (Event.byteStringValue v SemanticTag.base64url))
    else if m.itemTagVal = 0x16 then
      let (v, m1) := readFn m
      if m1.ec.isSome then { m1 with more := false }
      else clearItemTag (emit m1 (Event.byteStringValue v SemanticTag.base64))
    else if m.itemTagVal = 0x17 then
      let (v, m1) := readFn m
      if m1.ec.isSome then { m1 with more := false }
      else clearItemTag (emit m1 (Event.byteStringValue v SemanticTag.base16))
    else if typedArrayTags.contains m.itemTagVal then
      let (v, m1) := readFn m
      if m1.ec.isSome then { m1 with more := false }
      else
        let tag := if m.itemTagVal = 0x44 then SemanticTag.clamped else SemanticTag.none
        clearItemTag (emit m1 (Event.typedArrayValue m.itemTagVal v tag))
    else
      let (v, m1) := readFn m
      if m1.ec.isSome then { m1 with more := false }
      else clearItemTag (emit m1 (Event.byteStringValue v SemanticTag.none))
  else
    let (v, m1) := readFn m
    if m1.ec.isSome then m1
    else emit m1 (Event.byteStringValue v SemanticTag.none)

/-- The tag numbers recorded as `item_tag` by `read_tags`. -/
def itemTagValues : List Nat :=
  [0, 1, 2, 3, 4, 5, 0x15, 0x16, 0x17, 32, 33, 34, 40, 1040] ++ typedArrayTags

/-- `read_tags(ec)`: consume consecutive major-type-6 heads, setting the
pending flags; 25 sets `stringref`, 256 sets `stringref_namespace`, the
recognised list records `item_tag`, anything else is discarded. -/
def read_tags : Nat → Machine → Machine
  | 0, m => m
  | fuel + 1, m =>
    match m.input with
    | [] => errMore m CborErrc.unexpected_eof
    | c :: _ =>
      if majorOf c = 6 then
        let (val, m1) := get_uint64_value m
        if m1.ec.isSome then m1
        else
          let m2 :=
            if val = 25 then { m1 with strefFlag := true }
            else if val = 256 then { m1 with strefNsFlag := true }
            else if itemTagValues.contains val then
              { m1 with itemTagFlag := true, itemTagVal := val }
            else m1
          read_tags fuel m2
      else m

/-- `begin_array(visitor, info, ec)`.  Note that on a nesting-depth overflow
the source sets `ec` but does not latch `more_`; the depth stays
incremented, and a pending `stringref_namespace` pushes its table before a
length-decoding error can occur. -/
def begin_array (m0 : Machine) (info : Nat) : Machine :=
  let m := { m0 with depth := m0.depth + 1 }
  if m.maxDepth < m.depth then { m with ec := some CborErrc.max_nesting_depth_exceeded }
  else
    let pop := m.strefNsFlag
    let m :=
      if m.strefNsFlag then { m with strefStack := [] :: m.strefStack, strefNsFlag := false }
      else m
    if info = 31 then
      let m := { m with stack := ⟨ParseMode.indefinite_array, 0, 0, pop⟩ :: m.stack }
      let m := emit m (Event.beginArray none SemanticTag.none)
      { m with input := m.input.drop 1 }
    else
      let (len, m1) := get_size m
      if m1.ec.isSome then m1
      else
        let m1 := { m1 with stack := ⟨ParseMode.array, len, 0, pop⟩ :: m1.stack }
        emit m1 (Event.beginArray (some len) SemanticTag.none)

/-- `end_array(visitor, ec)`. -/
def end_array (m0 : Machine) : Machine :=
  let m := emit { m0 with depth := m0.depth - 1 } Event.endArray
  match m.stack with
  | [] => m
  | fr :: rest =>
    let m :=
      if fr.pop_stringref_map_stack then { m with strefStack := m.strefStack.drop 1 } else m
    { m with stack := rest }

/-- `begin_object(visitor, info, ec)`: same structure as `begin_array`. -/
def begin_object (m0 : Machine) (info : Nat) : Machine :=
  let m := { m0 with depth := m0.depth + 1 }
  if m.maxDepth < m.depth then { m with ec := some CborErrc.max_nesting_depth_exceeded }
  else
    let pop := m.strefNsFlag
    let m :=
      if m.strefNsFlag then { m with strefStack := [] :: m.strefStack, strefNsFlag := false }
      else m
    if info = 31 then
      let m := { m with stack := ⟨ParseMode.indefinite_map_key, 0, 0, pop⟩ :: m.stack }
      let m := emit m (Event.beginObject none SemanticTag.none)
      { m with input := m.input.drop 1 }
    else
      let (len, m1) := get_size m
      if m1.ec.isSome then m1
      else
        let m1 := { m1 with stack := ⟨ParseMode.map_key, len, 0, pop⟩ :: m1.stack }
        emit m1 (Event.beginObject (some len) SemanticTag.none)

/-- `end_object(visitor, ec)`. -/
def end_object (m0 : Machine) : Machine :=
  let m := emit { m0 with depth := m0.depth - 1 } Event.endObject
  match m.stack with
  | [] => m
  | fr :: rest =>
    let m :=
      if fr.pop_stringref_map_stack then { m with strefStack := m.strefStack.drop 1 } else m
    { m with stack := rest }

/-- The `while (true)` of `read_shape`'s indefinite-length branch.  The
break byte is consumed but — as in the source — does not leave the loop,
which therefore keeps consuming size arguments until an error stops it. -/
def read_shape_loop : Nat → Machine → List Nat → List Nat × Machine
  | 0, m, shape => (shape, m)
  | fuel + 1, m, shape =>
    match m.input with
    | [] => (shape, errMore m CborErrc.unexpected_eof)
    | c :: rest =>
      if c % 256 = 0xff then read_shape_loop fuel { m with input := rest } shape
      else
        let (dim, m1) := get_size m
        if m1.ec.isSome then (shape, m1)
        else read_shape_loop fuel m1 (shape ++ [dim])

/-- The `for (i = 0; more_ && i < size; ++i)` of `read_shape`'s
definite-length branch. -/
def read_shape_n : Nat → Machine → List Nat → List Nat × Machine
  | 0, m, shape => (shape, m)
  | k + 1, m, shape =>
    if m.more then
      let (dim, m1) := get_size m
      if m1.ec.isSome then (shape, m1)
      else read_shape_n k m1 (shape ++ [dim])
    else (shape, m)

/-- `read_shape(info, ec)` (the `shape_` buffer is cleared on entry). -/
def read_shape (fuel : Nat) (m : Machine) (info : Nat) : List Nat × Machine :=
  if info = 31 then read_shape_loop fuel m []
  else
    let (size, m1) := get_size m
    if m1.ec.isSome then ([], m1)
    else read_shape_n size m1 []

/-- `produce_begin_multi_dim(visitor, tag, ec)`. -/
def produce_begin_multi_dim (fuel : Nat) (m0 : Machine) (tag : SemanticTag) : Machine :=
  match m0.input with
  | [] => errMore m0 CborErrc.unexpected_eof
  | c :: rest =>
    let info := infoOf c
    let m := { m0 with input := rest }
    let (shape, m1) := read_shape fuel m info
    if m1.ec.isSome then m1
    else
      let m1 := { m1 with stack := ⟨ParseMode.multi_dim, 0, 0, false⟩ :: m1.stack }
      emit m1 (Event.beginMultiDim shape tag)

/-- `produce_end_multi_dim(visitor, ec)`. -/
def produce_end_multi_dim (m : Machine) : Machine :=
  let m1 := emit m Event.endMultiDim
  { m1 with stack := m1.stack.drop 1 }

/-- The final rendering step of `read_array_as_decimal_string`: prettify the
collected digit string (splitting off a leading minus sign) unless it is
empty. -/
def finishDec (s : List Nat) (expo : Int) : List Nat :=
  if s.length > 0 then
    match s with
    | 45 :: srest => 45 :: prettify srest (toInt32 expo)
    | _ => prettify s (toInt32 expo)
  else []

/-- `read_array_as_decimal_string(result, ec)` (tag 4).  The array head was
only peeked by `read_item` and is consumed here; the source asserts it is a
two-element array head.  The mantissa peek casts `source_.peek()` straight
to `uint8_t`, so end of input looks like a major-type-7 byte and falls to
`invalid_bigdec`. -/
def read_array_as_decimal_string (fuel : Nat) (m0 : Machine) : List Nat × Machine :=
  match m0.input with
  | [] => ([], errMore m0 CborErrc.unexpected_eof)
  | _ :: rest0 =>
    let m := { m0 with input := rest0 }
    match m.input with
    | [] => ([], errMore m CborErrc.unexpected_eof)
    | c :: _ =>
      let (expo, m1) :=
        if majorOf c = 0 then
          let (v, m1) := get_uint64_value m
          (toInt64 v, m1)
        else if majorOf c = 1 then get_int64_value m
        else (0, errMore m CborErrc.invalid_bigdec)
      if m1.ec.isSome then ([], m1)
      else
        let c2 := match m1.input with | [] => 255 | d :: _ => d % 256
        if majorOf c2 = 0 then
          let (v, m2) := get_uint64_value m1
          if m2.ec.isSome then ([], m2) else (finishDec (natToDecimal v) expo, m2)
        else if majorOf c2 = 1 then
          let (v, m2) := get_int64_value m1
          if m2.ec.isSome then ([], m2) else (finishDec (intToDecimal v) expo, m2)
        else if majorOf c2 = 6 then
          match m1.input with
          | [] => ([], errMore m1 CborErrc.unexpected_eof)
          | d :: rest2 =>
            let tagv := infoOf d
            let m2 := { m1 with input := rest2 }
            match m2.input with
            | [] => ([], errMore m2 CborErrc.unexpected_eof)
            | e :: _ =>
              if majorOf e = 2 then
                let (_, v, m3) := read_byte_string fuel m2
                if m3.ec.isSome then ([], { m3 with more := false })
                else
                  let s :=
                    if tagv = 2 then bignumDumpDec 1 v
                    else if tagv = 3 then bignumDumpDec (-1) v
                    else []
                  (finishDec s expo, m3)
              else (finishDec [] expo, m2)
        else ([], errMore m1 CborErrc.invalid_bigdec)

/-- `read_array_as_hexfloat_string(s, ec)` (tag 5).  The mantissa rendering
pushes `-0x` even for a tag-2 (positive) bignum; for a tag-3 bignum the sign
written by `dump_hex_string` is overwritten with `x` at index 2. -/
def read_array_as_hexfloat_string (fuel : Nat) (m0 : Machine) : List Nat × Machine :=
  match m0.input with
  | [] => ([], errMore m0 CborErrc.unexpected_eof)
  | _ :: rest0 =>
    let m := { m0 with input := rest0 }
    match m.input with
    | [] => ([], errMore m CborErrc.unexpected_eof)
    | c :: _ =>
      let (expo, m1) :=
        if majorOf c = 0 then
          let (v, m1) := get_uint64_value m
          (toInt64 v, m1)
        else if majorOf c = 1 then get_int64_value m
        else (0, errMore m CborErrc.invalid_bigfloat)
      if m1.ec.isSome then ([], m1)
      else
        let c2 := match m1.input with | [] => 255 | d :: _ => d % 256
        let (s, m2) :=
          if majorOf c2 = 0 then
            let (v, m2) := get_uint64_value m1
            ([48, 120] ++ natToHex v, m2)
          else if majorOf c2 = 1 then
            let (v, m2) := get_int64_value m1
            ([45, 48, 120] ++ natToHex (toUint64 (-v)), m2)
          else if majorOf c2 = 6 then
            match m1.input with
            | [] => ([], errMore m1 CborErrc.unexpected_eof)
            | d :: rest2 =>
              let tagv := infoOf d
              let m2 := { m1 with input := rest2 }
              match m2.input with
              | [] => ([], errMore m2 CborErrc.unexpected_eof)
              | e :: _ =>
                if majorOf e = 2 then
                  let (lk, v, m3) := read_byte_string fuel m2
                  let m3 := { m3 with more := lk }
                  if lk = false then ([], m3)
                  else
                    if tagv = 2 then ([45, 48, 120] ++ bignumDumpHex 1 v, m3)
                    else if tagv = 3 then (([45, 48] ++ bignumDumpHex (-1) v).set 2 120, m3)
                    else ([], m3)
                else ([], m2)
          else ([], errMore m1 CborErrc.invalid_bigfloat)
        if m2.ec.isSome then ([], m2)
        else
          (s ++ [112] ++
            (if 0 ≤ expo then natToHex expo.toNat else 45 :: natToHex (toUint64 (-expo))), m2)

/-- `read_item(visitor, ec)`: decode one data item after scanning its tags.
Paths that `break` out of the dispatch run line 614
(`other_tags_[item_tag] = false`, `clearItemTag` here); early `return`s on
an error skip it. -/
def read_item (fuel : Nat) (m0 : Machine) : Machine :=
  let m := read_tags fuel m0
  if m.ec.isSome then m
  else
    match m.input with
    | [] => errMore m CborErrc.unexpected_eof
    | c :: _ =>
      let info := infoOf c
      match majorOf c with
      | 0 =>
        let (val, m1) := get_uint64_value m
        if m1.ec.isSome then m1
        else if m1.strefStack ≠ [] ∧ m1.strefFlag then
          let m2 := { m1 with strefFlag := false }
          let tbl := m2.strefStack.headD []
          if tbl.length ≤ val then errMore m2 CborErrc.stringref_too_large
          else if val % 2 ^ 64 ≠ val then errMore m2 CborErrc.number_too_large
          else
            match tbl.getD val (MappedString.text []) with
            | MappedString.text s =>
              let m3 := handle_string m2 s
              if m3.ec.isSome then m3 else clearItemTag m3
            | MappedString.bytes bs =>
              let m3 := write_byte_string (fun mm => (bs, mm)) m2
              if m3.ec.isSome then m3 else clearItemTag m3
        else
          let tg :=
            if m1.itemTagFlag ∧ m1.itemTagVal = 1 then SemanticTag.timestamp
            else SemanticTag.none
          let m2 := if m1.itemTagFlag then clearItemTag m1 else m1
          clearItemTag (emit m2 (Event.uint64Value val tg))
      | 1 =>
        let (val, m1) := get_int64_value m
        if m1.ec.isSome then m1
        else
          let tg :=
            if m1.itemTagFlag ∧ m1.itemTagVal = 1 then SemanticTag.timestamp
            else SemanticTag.none
          let m2 := if m1.itemTagFlag then clearItemTag m1 else m1
          clearItemTag (emit m2 (Event.int64Value val tg))
      | 2 =>
        let m1 :=
          write_byte_string
            (fun mm =>
              let r := read_byte_string fuel mm
              (r.2.1, r.2.2)) m
        if m1.ec.isSome then m1 else clearItemTag m1
      | 3 =>
        let (s, m1) := read_text_string fuel m
        if m1.ec.isSome then m1
        else if validUtf8 s = false then errMore m1 CborErrc.invalid_utf8_text_string
        else
          let m2 := handle_string m1 s
          if m2.ec.isSome then m2 else clearItemTag m2
      | 6 => errMore m CborErrc.model_unreachable
      -- source line 500: `case semantic_tag: JSONCONS_UNREACHABLE();` —
      -- after the tag loop the head cannot be major type 6; the model can
      -- still be here when `read_tags` ran out of fuel, so it errors rather
      -- than inventing a silent behaviour the source does not have.
      | 7 =>
        if info = 20 then
          let m1 := emit m (Event.boolValue false SemanticTag.none)
          clearItemTag { m1 with input := m1.input.drop 1 }
        else if info = 21 then
          let m1 := emit m (Event.boolValue true SemanticTag.none)
          clearItemTag { m1 with input := m1.input.drop 1 }
        else if info = 22 then
          let m1 := emit m (Event.nullValue SemanticTag.none)
          clearItemTag { m1 with input := m1.input.drop 1 }
        else if info = 23 then
          let m1 := emit m (Event.nullValue SemanticTag.undefined)
          clearItemTag { m1 with input := m1.input.drop 1 }
        else if info = 25 then
          let (val, m1) := get_uint64_value m
          if m1.ec.isSome then m1
          else clearItemTag (emit m1 (Event.halfValue (val % 65536) SemanticTag.none))
        else if info = 26 ∨ info = 27 then
          let (wb, m1) := get_double m
          if m1.ec.isSome then m1
          else
            let tg :=
              if m1.itemTagFlag ∧ m1.itemTagVal = 1 then SemanticTag.timestamp
              else SemanticTag.none
            let m2 := if m1.itemTagFlag then clearItemTag m1 else m1
            clearItemTag (emit m2 (Event.doubleValue wb.1 wb.2 tg))
        else errMore m CborErrc.unknown_type
      | 4 =>
        if m.itemTagFlag then
          if m.itemTagVal = 4 then
            let (s, m1) := read_array_as_decimal_string fuel m
            if m1.ec.isSome then m1
            else clearItemTag (emit m1 (Event.stringValue s SemanticTag.bigdec))
          else if m.itemTagVal = 5 then
            let (s, m1) := read_array_as_hexfloat_string fuel m
            if m1.ec.isSome then m1
            else clearItemTag (emit m1 (Event.stringValue s SemanticTag.bigfloat))
          else if m.itemTagVal = 40 then
            clearItemTag (produce_begin_multi_dim fuel m SemanticTag.multi_dim_row_major)
          else if m.itemTagVal = 1040 then
            clearItemTag (produce_begin_multi_dim fuel m SemanticTag.multi_dim_column_major)
          else clearItemTag (begin_array m info)
        else clearItemTag (begin_array m info)
      | 5 => clearItemTag (begin_object m info)
      | _ => clearItemTag m

/-- Modelled from the spec: the `json_string_encoder` visitor used by
`read_name` for keys that are neither strings nor stringref backreferences
belongs to the core library, outside the provided sources.  Only the fact
that it renders the nested item into a text buffer matters to the claims;
this is a simple JSON-like rendering of one recorded event. -/
def jsonRenderEvent : Event → List Nat
  | Event.uint64Value v _ => natToDecimal v
  | Event.int64Value v _ => intToDecimal v
  | Event.halfValue v _ => natToDecimal v
  | Event.doubleValue _ bits _ => natToDecimal bits
  | Event.boolValue b _ => if b then [116, 114, 117, 101] else [102, 97, 108, 115, 101]
  | Event.nullValue _ => [110, 117, 108, 108]
  | Event.stringValue s _ => 34 :: s ++ [34]
  | Event.byteStringValue bs _ => 34 :: encode_base64url bs ++ [34]
  | Event.typedArrayValue _ bs _ => 34 :: encode_base64url bs ++ [34]
  | Event.key s => 34 :: s ++ [34, 58]
  | Event.beginArray _ _ => [91]
  | Event.endArray => [93]
  | Event.beginObject _ _ => [123]
  | Event.endObject => [125]
  | Event.beginMultiDim _ _ => [91]
  | Event.endMultiDim => [93]
  | Event.flush => []

/-- Modelled from the spec: text produced by the nested key encoder. -/
def jsonRender (es : List Event) : List Nat :=
  (es.map jsonRenderEvent).flatten

/-- Selector for the two mutually recursive routines: the `parse` driver
loop and `read_name`. -/
inductive RunKind where
  | parseDriver
  | nameReader
deriving DecidableEq, Repr

/-- The `parse(visitor, ec)` loop (`parseDriver`) and `read_name(visitor,
ec)` (`nameReader`), which recurse into each other: map modes invoke
`read_name`, and `read_name`'s default branch moves the source into a
freshly constructed parser (with default options, `max_nesting_depth`
1024) whose `parse` renders the key item to text. -/
def runAux : Nat → RunKind → Machine → Machine
  | 0, _, m => m
  | fuel + 1, RunKind.parseDriver, m =>
    if m.done ∨ m.more = false then m
    else
      match m.stack with
      | [] => m
      | fr :: rest =>
        match fr.mode with
        | ParseMode.multi_dim =>
          if fr.index = 0 then
            let m1 := { m with stack := { fr with index := fr.index + 1 } :: rest }
            let m2 := read_item fuel m1
            if m2.ec.isSome then m2 else runAux fuel RunKind.parseDriver m2
          else runAux fuel RunKind.parseDriver (produce_end_multi_dim m)
        | ParseMode.array =>
          if fr.index < fr.length then
            let m1 := { m with stack := { fr with index := fr.index + 1 } :: rest }
            let m2 := read_item fuel m1
            if m2.ec.isSome then m2 else runAux fuel RunKind.parseDriver m2
          else runAux fuel RunKind.parseDriver (end_array m)
        | ParseMode.indefinite_array =>
          match m.input with
          | [] => errMore m CborErrc.unexpected_eof
          | c :: rest2 =>
            if c % 256 = 0xff then
              let m1 := end_array { m with input := rest2 }
              if m1.ec.isSome then m1 else runAux fuel RunKind.parseDriver m1
            else
              let m2 := read_item fuel m
              if m2.ec.isSome then m2 else runAux fuel RunKind.parseDriver m2
        | ParseMode.map_key =>
          if fr.index < fr.length then
            let m1 := { m with stack := { fr with index := fr.index + 1 } :: rest }
            let m2 := runAux fuel RunKind.nameReader m1
            if m2.ec.isSome then m2
            else
              let m3 :=
                match m2.stack with
                | [] => m2
                | g :: gs => { m2 with stack := { g with mode := ParseMode.map_value } :: gs }
              runAux fuel RunKind.parseDriver m3
          else runAux fuel RunKind.parseDriver (end_object m)
        | ParseMode.map_value =>
          let m1 := { m with stack := { fr with mode := ParseMode.map_key } :: rest }
          let m2 := read_item fuel m1
          if m2.ec.isSome then m2 else runAux fuel RunKind.parseDriver m2
        | ParseMode.indefinite_map_key =>
          match m.input with
          | [] => errMore m CborErrc.unexpected_eof
          | c :: rest2 =>
            if c % 256 = 0xff then
              let m1 := end_object { m with input := rest2 }
              if m1.ec.isSome then m1 else runAux fuel RunKind.parseDriver m1
            else
              let m2 := runAux fuel RunKind.nameReader m
              if m2.ec.isSome then m2
              else
                let m3 :=
                  match m2.stack with
                  | [] => m2
                  | g :: gs =>
                    { m2 with stack := { g with mode := ParseMode.indefinite_map_value } :: gs }
                runAux fuel RunKind.parseDriver m3
        | ParseMode.indefinite_map_value =>
          let m1 := { m with stack := { fr with mode := ParseMode.indefinite_map_key } :: rest }
          let m2 := read_item fuel m1
          if m2.ec.isSome then m2 else runAux fuel RunKind.parseDriver m2
        | ParseMode.root =>
          let m1 := { m with stack := { fr with mode := ParseMode.before_done } :: rest }
          let m2 := read_item fuel m1
          if m2.ec.isSome then m2 else runAux fuel RunKind.parseDriver m2
        | ParseMode.before_done =>
          let m1 := emitFlush { m with stack := [], more := false, done := true }
          runAux fuel RunKind.parseDriver m1
  | fuel + 1, RunKind.nameReader, m0 =>
    let m1 := read_tags fuel m0
    if m1.ec.isSome then m1
    else
      match m1.input with
      | [] => errMore m1 CborErrc.unexpected_eof
      | c :: _ =>
        match majorOf c with
        | 3 =>
          let (s, m2) := read_text_string fuel m1
          if m2.ec.isSome then m2
          else if validUtf8 s = false then errMore m2 CborErrc.invalid_utf8_text_string
          else emit m2 (Event.key s)
        | 2 =>
          let r := read_byte_string fuel m1
          let m2 := { r.2.2 with more := r.1 }
          if r.1 = false then m2
          else emit m2 (Event.key (encode_base64url r.2.1))
        | 0 =>
          if m1.strefStack ≠ [] ∧ m1.strefFlag then
            let m2 := { m1 with strefFlag := false }
            let (ref, m3) := get_uint64_value m2
            if m3.ec.isSome then m3
            else
              match m3.strefStack with
              | [] => m3
              | tbl :: _ =>
                if tbl.length ≤ ref then errMore m3 CborErrc.stringref_too_large
                else if ref % 2 ^ 64 ≠ ref then errMore m3 CborErrc.number_too_large
                else
                  match tbl[ref]? with
                  | some (MappedString.text s) => emit m3 (Event.key s)
                  | some (MappedString.bytes bs) => emit m3 (Event.key (encode_base64url bs))
                  | none => m3
          else
            let inner := runAux fuel RunKind.parseDriver (initMachine 1024 m1.input)
            if inner.ec.isSome then
              { m1 with ec := inner.ec, more := false, input := inner.input }
            else
              let s := jsonRender inner.events
              let m2 := { m1 with input := inner.input }
              if validUtf8 s = false then errMore m2 CborErrc.invalid_utf8_text_string
              else emit m2 (Event.key s)
        | _ =>
          let inner := runAux fuel RunKind.parseDriver (initMachine 1024 m1.input)
          if inner.ec.isSome then
            { m1 with ec := inner.ec, more := false, input := inner.input }
          else
            let s := jsonRender inner.events
            let m2 := { m1 with input := inner.input }
            if validUtf8 s = false then errMore m2 CborErrc.invalid_utf8_text_string
            else emit m2 (Event.key s)

/-- The `parse(visitor, ec)` loop on an already-initialised machine. -/
def parseLoop (fuel : Nat) (m : Machine) : Machine :=
  runAux fuel RunKind.parseDriver m

/-- `read_name(visitor, ec)`. -/
def read_name (fuel : Nat) (m : Machine) : Machine :=
  runAux fuel RunKind.nameReader m

/-- One call to `parse(visitor, ec)`: the caller passes in a cleared
`error_code`. -/
def parseCall (fuel : Nat) (m : Machine) : Machine :=
  parseLoop fuel { m with ec := none }

/-- The top frame is waiting for a map value (the only situation in which a
just-read key may have left an `item_tag` pending). -/
def pendingKeyTop (m : Machine) : Prop :=
  match m.stack with
  | fr :: _ =>
    fr.mode = ParseMode.map_value ∨ fr.mode = ParseMode.indefinite_map_value
  | [] => False

/-! ## Theorems for the claims -/

/-- C1.  The claim says the input `0x1A 0x00 0x00` (a four-byte argument
truncated to two bytes) makes `parse` report `unexpected_eof`.  The code
disagrees: `get_uint64_value` checks the read count only for the one-byte
argument form, so the truncated four-byte argument produces no error at all
— the parser delivers a `uint64` event (whose value comes from an
uninitialised tail of the stack buffer, zero in this model) and runs to
completion with the error code still clear. -/
theorem c1_truncated_argument_is_not_an_error :
    (parseLoop 10 (initMachine 1024 [0x1A, 0x00, 0x00])).ec = none ∧
    (parseLoop 10 (initMachine 1024 [0x1A, 0x00, 0x00])).events =
      [Event.uint64Value 0 SemanticTag.none, Event.flush] ∧
    (parseLoop 10 (initMachine 1024 [0x1A, 0x00, 0x00])).done = true := by
  refine ⟨?_, ?_, ?_⟩ <;> decide

/-- C2.  The claim says a bigfloat whose mantissa is a tag-2 (positive)
bignum is rendered without a leading minus sign.  The code pushes `-0x`
unconditionally before dumping a tag-2 bignum mantissa: for tag 5 array
`[0, 2(h'01')]` (bytes `C5 82 00 C2 41 01`) it emits the string "-0x1p0"
(bytes 45 48 120 49 112 48) with tag `bigfloat` — a leading '-' although
the mantissa is the positive bignum 1. -/
theorem c2_positive_bignum_mantissa_rendered_negative :
    (parseLoop 20 (initMachine 1024 [0xC5, 0x82, 0x00, 0xC2, 0x41, 0x01])).ec = none ∧
    (parseLoop 20 (initMachine 1024 [0xC5, 0x82, 0x00, 0xC2, 0x41, 0x01])).events =
      [Event.stringValue [45, 48, 120, 49, 112, 48] SemanticTag.bigfloat, Event.flush] := by
  exact ⟨by decide, by decide⟩

/-- C3.  The claim says every error latches `more = false` (so `stopped()`
is true) and a further `parse` call delivers no visitor event.  The code
disagrees for `max_nesting_depth_exceeded`: `begin_array` sets the error
code without touching `more_`.  With `max_nesting_depth = 0` and input
`0x80`, the first `parse` call ends with the error set but `more` still
true, and a second `parse` call (with a fresh error code) delivers the
`flush` callback and completes. -/
theorem c3_depth_error_does_not_latch_stopped :
    (parseLoop 10 (initMachine 0 [0x80])).ec = some CborErrc.max_nesting_depth_exceeded ∧
    (parseLoop 10 (initMachine 0 [0x80])).more = true ∧
    (parseCall 10 (parseLoop 10 (initMachine 0 [0x80]))).events = [Event.flush] ∧
    (parseCall 10 (parseLoop 10 (initMachine 0 [0x80]))).done = true := by
  refine ⟨?_, ?_, ?_, ?_⟩ <;> decide

/-- C4.  The claim says a Major-1 item with an 8-byte argument whose top
bit is set must raise `number_too_large`.  The code instead wraps the
argument through `static_cast<int64_t>` and subtracts, so for bytes
`3B 80 00 00 00 00 00 00 00` (argument `2^63`) it reports no error and
delivers `int64` with the positive value `2^63 - 1` =
9223372036854775807 — a positive result for a CBOR negative integer. -/
theorem c4_negative_overflow_emits_wrapped_value :
    (parseLoop 10 (initMachine 1024 [0x3B, 0x80, 0, 0, 0, 0, 0, 0, 0])).ec = none ∧
    (parseLoop 10 (initMachine 1024 [0x3B, 0x80, 0, 0, 0, 0, 0, 0, 0])).events =
      [Event.int64Value 9223372036854775807 SemanticTag.none, Event.flush] := by
  exact ⟨by decide, by decide⟩

/-- C7, counterexample.  The claim says a Major-0 value read with the
stringref flag pending and a non-empty table always "emits the stored text
or byte string at index v through the corresponding visitor callback" when
in range.  Input `D9 0100 82 43 010203 C2 D8 19 00` stores the byte string
`01 02 03` at index 0 and then backreferences it with tag 2 (positive
bignum) also pending: the parser does not deliver the stored byte string
through the byte-string callback — it emits the string "66051" (the bytes'
bignum value) with tag `bigint` through the string callback. -/
theorem c7_backref_with_pending_bignum_tag_not_byte_string :
    (parseLoop 30 (initMachine 1024
        [0xD9, 0x01, 0x00, 0x82, 0x43, 1, 2, 3, 0xC2, 0xD8, 0x19, 0x00])).ec = none ∧
    (parseLoop 30 (initMachine 1024
        [0xD9, 0x01, 0x00, 0x82, 0x43, 1, 2, 3, 0xC2, 0xD8, 0x19, 0x00])).events =
      [Event.beginArray (some 2) SemanticTag.none,
       Event.byteStringValue [1, 2, 3] SemanticTag.none,
       Event.stringValue [54, 54, 48, 53, 49] SemanticTag.bigint,
       Event.endArray, Event.flush] := by
  exact ⟨by decide, by decide⟩

/-- C8, counterexample.  The claim says that after one complete top-level
item none of the three pending-tag flags is still set, regardless of the
tags in the input.  For input `D8 19 00` (tag 25 on an unsigned integer,
with no stringref table in scope) the parse completes — delivering
`uint64(0)` — and the `stringref` flag is still set: nothing on this path
ever clears it. -/
theorem c8_stringref_flag_survives_top_level_item :
    (parseLoop 10 (initMachine 1024 [0xD8, 0x19, 0x00])).done = true ∧
    (parseLoop 10 (initMachine 1024 [0xD8, 0x19, 0x00])).ec = none ∧
    (parseLoop 10 (initMachine 1024 [0xD8, 0x19, 0x00])).strefFlag = true := by
  refine ⟨?_, ?_, ?_⟩ <;> decide

/-- C9, counterexample.  The claim says that after `reset()` a byte
sequence parses exactly as on a fresh parser, whatever the prior history.
But `reset()` clears only the frame stack, `more_` and `done_`.  Parse
`D9 0100 81` first (tag 256, then an array of one with no element): it
fails with `unexpected_eof`, leaving a pushed stringref table behind.
After `reset()`, parsing `D8 19 00` hits the leftover (empty) table and
fails with `stringref_too_large`, while a fresh parser delivers
`uint64(0)` and finishes without error. -/
theorem c9_reset_after_error_differs_from_fresh :
    (parseLoop 10
        { resetMachine (parseLoop 10 (initMachine 1024 [0xD9, 0x01, 0x00, 0x81])) with
            input := [0xD8, 0x19, 0x00], ec := none, events := [] }).ec =
      some CborErrc.stringref_too_large ∧
    (parseLoop 10
        { resetMachine (parseLoop 10 (initMachine 1024 [0xD9, 0x01, 0x00, 0x81])) with
            input := [0xD8, 0x19, 0x00], ec := none, events := [] }).events = [] ∧
    (parseLoop 10 (initMachine 1024 [0xD8, 0x19, 0x00])).ec = none ∧
    (parseLoop 10 (initMachine 1024 [0xD8, 0x19, 0x00])).events =
      [Event.uint64Value 0 SemanticTag.none, Event.flush] := by
  refine ⟨?_, ?_, ?_, ?_⟩ <;> decide

/-- C9, amended.  `reset()` followed by parsing a byte sequence produces
exactly the same result as a fresh parser with the same options, provided
the prior history left the state that `reset()` does not touch at its
initial values: an empty stringref-table stack, nesting depth zero, and
cleared pending-tag state.  (That is the case, for example, after a
completed error-free parse of untagged data; after an error inside a
stringref namespace it is not, as the counterexample shows.) -/
theorem c9_reset_matches_fresh_parse (fuel : Nat) (m : Machine) (input : List Nat)
    (h1 : m.strefStack = []) (h2 : m.depth = 0) (h3 : m.strefFlag = false)
    (h4 : m.strefNsFlag = false) (h5 : m.itemTagFlag = false) (h6 : m.itemTagVal = 0) :
    parseLoop fuel { resetMachine m with input := input, ec := none, events := [] } =
      parseLoop fuel (initMachine m.maxDepth input) := by
  have : { resetMachine m with input := input, ec := none, events := [] } =
      initMachine m.maxDepth input := by
    cases m
    simp_all [resetMachine, initMachine]
  rw [this]

/-- Witness for `c9_reset_matches_fresh_parse` at the machine left by a
completed parse of `0x00`, re-parsing the bytes `0x01`. -/
theorem c9_reset_matches_fresh_parse_witness :
    ((parseLoop 5 (initMachine 1024 [0x00])).strefStack = [] ∧
      (parseLoop 5 (initMachine 1024 [0x00])).depth = 0 ∧
      (parseLoop 5 (initMachine 1024 [0x00])).strefFlag = false ∧
      (parseLoop 5 (initMachine 1024 [0x00])).strefNsFlag = false ∧
      (parseLoop 5 (initMachine 1024 [0x00])).itemTagFlag = false ∧
      (parseLoop 5 (initMachine 1024 [0x00])).itemTagVal = 0) ∧
    parseLoop 7
        { resetMachine (parseLoop 5 (initMachine 1024 [0x00])) with
            input := [0x01], ec := none, events := [] } =
      parseLoop 7 (initMachine (parseLoop 5 (initMachine 1024 [0x00])).maxDepth [0x01]) :=
  ⟨⟨by decide, by decide, by decide, by decide, by decide, by decide⟩,
    c9_reset_matches_fresh_parse 7 (parseLoop 5 (initMachine 1024 [0x00])) [0x01]
      (by decide) (by decide) (by decide) (by decide) (by decide) (by decide)⟩

/-! ### Helper lemmas -/

theorem map_mod_eq_self (bs : List Nat) (h : ∀ b ∈ bs, b < 256) :
    bs.map (fun b => b % 256) = bs := by
  induction bs with
  | nil => rfl
  | cons b r ih =>
    simp only [List.map_cons, List.cons.injEq]
    exact ⟨Nat.mod_eq_of_lt (h b (by simp)), ih fun x hx => h x (by simp [hx])⟩

/-- `read_tags` does nothing when the next head is not a semantic tag. -/
theorem read_tags_non_tag (fuel : Nat) (m : Machine) (c : Nat) (r : List Nat)
    (h : m.input = c :: r) (h6 : majorOf c ≠ 6) : read_tags fuel m = m := by
  cases fuel with
  | zero => rfl
  | succ f => simp [read_tags, h, h6]

/-- `get_uint64_value` when the head byte carries an immediate argument. -/
theorem get_uint64_small (m : Machine) (c : Nat) (r : List Nat)
    (hin : m.input = c :: r) (hsm : infoOf c < 24) :
    get_uint64_value m = (infoOf c, { m with input := r }) := by
  simp [get_uint64_value, hin, hsm]

/-- `get_size` when the head byte carries an immediate argument. -/
theorem get_size_small (m : Machine) (c : Nat) (r : List Nat)
    (hin : m.input = c :: r) (hsm : infoOf c < 24) (hec : m.ec = none) :
    get_size m = (infoOf c, { m with input := r }) := by
  have h64 : infoOf c % 2 ^ 64 = infoOf c := Nat.mod_eq_of_lt (by omega)
  simp [get_size, get_uint64_small m c r hin hsm, hec, h64,
    show ¬((18446744073709551616 : Nat) ≤ infoOf c) by omega,
    show infoOf c < 18446744073709551616 by omega]

/-- `read_text_string` on a single definite-length chunk with an immediate
length whose bytes are all present, with no stringref table in scope: it
consumes the head and the payload and returns the payload. -/
theorem read_text_string_definite (f : Nat) (m : Machine) (n : Nat) (bs rest : List Nat)
    (hin : m.input = (96 + n) :: (bs ++ rest)) (hn : n < 24) (hlen : bs.length = n)
    (hb : ∀ b ∈ bs, b < 256) (hstr : m.strefStack = []) (hec : m.ec = none) :
    read_text_string (f + 1) m = (bs, { m with input := rest, more := true }) := by
  have hinfo : infoOf (96 + n) = n := by simp only [infoOf]; omega
  have htake : (bs ++ rest).take n = bs := List.take_left' hlen
  have hdrop : (bs ++ rest).drop n = rest := List.drop_left' hlen
  have hgs := get_size_small m (96 + n) (bs ++ rest) hin (by omega) hec
  rw [hinfo] at hgs
  simp [read_text_string, hin, iterChunks, hinfo, hgs, show n ≠ 31 by omega, hec,
    htake, hdrop, map_mod_eq_self bs hb, hlen, hstr]

/-- `read_item` on a definite-length text string whose bytes are not valid
UTF-8: the error is set, `more_` latched false, and no event emitted. -/
theorem read_item_bad_utf8 (f : Nat) (m : Machine) (n : Nat) (bs rest : List Nat)
    (hin : m.input = (96 + n) :: (bs ++ rest)) (hn : n < 24) (hlen : bs.length = n)
    (hb : ∀ b ∈ bs, b < 256) (hstr : m.strefStack = []) (hec : m.ec = none)
    (hbad : validUtf8 bs = false) :
    read_item (f + 1) m =
      { m with input := rest, more := false, ec := some CborErrc.invalid_utf8_text_string } := by
  have hmaj : majorOf (96 + n) = 3 := by simp only [majorOf]; omega
  have hrt := read_tags_non_tag (f + 1) m (96 + n) (bs ++ rest) hin (by rw [hmaj]; omega)
  have hts := read_text_string_definite f m n bs rest hin hn hlen hb hstr hec
  simp [read_item, hrt, hec, hin, hmaj, hts, hbad, errMore]

/-- `read_name` on a definite-length text-string key with invalid UTF-8:
error set, `more_` latched, no `key` callback. -/
theorem read_name_bad_utf8 (f : Nat) (m : Machine) (n : Nat) (bs rest : List Nat)
    (hin : m.input = (96 + n) :: (bs ++ rest)) (hn : n < 24) (hlen : bs.length = n)
    (hb : ∀ b ∈ bs, b < 256) (hstr : m.strefStack = []) (hec : m.ec = none)
    (hbad : validUtf8 bs = false) :
    read_name (f + 2) m =
      { m with input := rest, more := false, ec := some CborErrc.invalid_utf8_text_string } := by
  have hmaj : majorOf (96 + n) = 3 := by simp only [majorOf]; omega
  have hrt := read_tags_non_tag (f + 1) m (96 + n) (bs ++ rest) hin (by rw [hmaj]; omega)
  have hts := read_text_string_definite f m n bs rest hin hn hlen hb hstr hec
  simp only [read_name, show f + 2 = (f + 1) + 1 by omega, runAux]
  simp [hrt, hec, hin, hmaj, hts, hbad, errMore]

/-- C5.  A text-string item (here: any single definite-length chunk with an
immediate length, the claim's instance `0x62 C3 28` included) whose bytes
are not valid UTF-8 is rejected with `invalid_utf8_text_string` and no
visitor callback: parsing it as a top-level item delivers no event and
latches `more = false`, and reading it as a map key through `read_name`
likewise sets the error, latches `more`, and emits nothing (the machine is
left unchanged except for the consumed input, `more`, and the error). -/
theorem c5_invalid_utf8_rejected :
    (∀ (f : Nat) (maxd : Int) (n : Nat) (bs rest : List Nat),
        n < 24 → bs.length = n → (∀ b ∈ bs, b < 256) → validUtf8 bs = false →
        (parseLoop (f + 2) (initMachine maxd ((96 + n) :: (bs ++ rest)))).ec =
            some CborErrc.invalid_utf8_text_string ∧
          (parseLoop (f + 2) (initMachine maxd ((96 + n) :: (bs ++ rest)))).events = [] ∧
          (parseLoop (f + 2) (initMachine maxd ((96 + n) :: (bs ++ rest)))).more = false) ∧
    (∀ (f : Nat) (m : Machine) (n : Nat) (bs rest : List Nat),
        m.input = (96 + n) :: (bs ++ rest) → n < 24 → bs.length = n →
        (∀ b ∈ bs, b < 256) → m.strefStack = [] → m.ec = none → validUtf8 bs = false →
        read_name (f + 2) m =
          { m with
              input := rest
              more := false
              ec := some CborErrc.invalid_utf8_text_string }) := by
  constructor
  · intro f maxd n bs rest hn hlen hb hbad
    have hri := read_item_bad_utf8 f
      ⟨false, false, false, 0, true, false, [⟨ParseMode.before_done, 0, 0, false⟩], [], 0, maxd,
        (96 + n) :: (bs ++ rest), [], none⟩
      n bs rest rfl hn hlen hb rfl rfl hbad
    simp only [parseLoop, show f + 2 = (f + 1) + 1 by omega, runAux]
    simp [initMachine, hri]
  · intro f m n bs rest hin hn hlen hb hstr hec hbad
    exact read_name_bad_utf8 f m n bs rest hin hn hlen hb hstr hec hbad

/-- Witness for `c5_invalid_utf8_rejected` at the claim's instance
`0x62 C3 28`. -/
theorem c5_invalid_utf8_rejected_witness :
    ((2 : Nat) < 24 ∧ validUtf8 [0xC3, 0x28] = false) ∧
    (parseLoop 2 (initMachine 1024 ((96 + 2) :: ([0xC3, 0x28] ++ [])))).ec =
      some CborErrc.invalid_utf8_text_string :=
  ⟨⟨by decide, by decide⟩,
    (c5_invalid_utf8_rejected.1 0 1024 2 [0xC3, 0x28] [] (by decide) (by decide)
      (by decide) (by decide)).1⟩

/-- `get_uint64_value` touches only the source position, `more_` and the
error code. -/
theorem get_uint64_preserves (m : Machine) :
    (get_uint64_value m).2.strefFlag = m.strefFlag ∧
    (get_uint64_value m).2.strefNsFlag = m.strefNsFlag ∧
    (get_uint64_value m).2.itemTagFlag = m.itemTagFlag ∧
    (get_uint64_value m).2.itemTagVal = m.itemTagVal ∧
    (get_uint64_value m).2.done = m.done ∧
    (get_uint64_value m).2.stack = m.stack ∧
    (get_uint64_value m).2.strefStack = m.strefStack ∧
    (get_uint64_value m).2.events = m.events := by
  unfold get_uint64_value
  rcases hin : m.input with _ | ⟨t, rest⟩
  · simp [errMore]
  · dsimp only
    split
    · simp
    · split
      · rcases rest with _ | ⟨c, rest2⟩ <;> simp [errMore]
      · split
        · simp
        · split
          · simp
          · split <;> simp

/-- `read_byte_string` on a definite-length byte string with an immediate
length whose bytes are present, with no stringref table in scope. -/
theorem read_byte_string_definite (f : Nat) (m : Machine) (n : Nat) (bs rest : List Nat)
    (hin : m.input = (64 + n) :: (bs ++ rest)) (hn : n < 24) (hlen : bs.length = n)
    (hb : ∀ b ∈ bs, b < 256) (hstr : m.strefStack = []) (hec : m.ec = none) :
    read_byte_string f m = (true, bs, { m with input := rest }) := by
  have hinfo : infoOf (64 + n) = n := by simp only [infoOf]; omega
  have htake : (bs ++ rest).take n = bs := List.take_left' hlen
  have hdrop : (bs ++ rest).drop n = rest := List.drop_left' hlen
  have hgs := get_size_small m (64 + n) (bs ++ rest) hin (by omega) hec
  rw [hinfo] at hgs
  simp [read_byte_string, hin, hinfo, hgs, show n ≠ 31 by omega, hec,
    htake, hdrop, map_mod_eq_self bs hb, hlen, hstr]

/-- `read_name` on a directly encoded definite-length byte-string key:
no error, and the key is delivered as the base64url text of the bytes. -/
theorem read_name_byte_string_key (f : Nat) (m : Machine) (n : Nat) (bs rest : List Nat)
    (hin : m.input = (64 + n) :: (bs ++ rest)) (hn : n < 24) (hlen : bs.length = n)
    (hb : ∀ b ∈ bs, b < 256) (hstr : m.strefStack = []) (hec : m.ec = none) :
    read_name (f + 2) m =
      { m with
          input := rest
          more := true
          events := m.events ++ [Event.key (encode_base64url bs)] } := by
  have hmaj : majorOf (64 + n) = 2 := by simp only [majorOf]; omega
  have hrt := read_tags_non_tag (f + 1) m (64 + n) (bs ++ rest) hin (by rw [hmaj]; omega)
  have hbs := read_byte_string_definite (f + 1) m n bs rest hin hn hlen hb hstr hec
  simp only [read_name, show f + 2 = (f + 1) + 1 by omega, runAux]
  simp [hrt, hec, hin, hmaj, hbs, emit]

/-- `read_name` on a Major-0 key with the stringref flag pending and a
non-empty table stack: in range, the stored entry is delivered as a key (a
byte string through its base64url text); out of range, the error is
`stringref_too_large` with nothing emitted. -/
theorem read_name_backref_key (f : Nat) (m : Machine) (c : Nat) (r : List Nat)
    (tbl : List MappedString) (tbls : List (List MappedString)) (ref : Nat) (m1 : Machine)
    (hec : m.ec = none) (hin : m.input = c :: r) (hmaj : majorOf c = 0)
    (hstk : m.strefStack = tbl :: tbls) (hflag : m.strefFlag = true)
    (hget : get_uint64_value { m with strefFlag := false } = (ref, m1))
    (hec1 : m1.ec = none) (h64 : ref < 2 ^ 64) :
    read_name (f + 2) m =
      if h : ref < tbl.length then
        (match tbl.get ⟨ref, h⟩ with
         | MappedString.text s => emit m1 (Event.key s)
         | MappedString.bytes bs => emit m1 (Event.key (encode_base64url bs)))
      else errMore m1 CborErrc.stringref_too_large := by
  have hrt := read_tags_non_tag (f + 1) m c r hin (by rw [hmaj]; omega)
  have hpres := get_uint64_preserves { m with strefFlag := false }
  rw [hget] at hpres
  have hstk1 : m1.strefStack = tbl :: tbls := by
    simpa [hstk] using hpres.2.2.2.2.2.2.1
  simp only [hin, hstk, hec] at hget
  simp only [read_name, show f + 2 = (f + 1) + 1 by omega, runAux]
  simp [hrt, hec, hin, hmaj, hstk, hflag, hget, hec1, hstk1, Nat.mod_eq_of_lt h64]
  rcases Nat.lt_or_ge ref tbl.length with hlt | hge
  · rw [dif_pos hlt, if_neg (by omega), if_neg (by omega),
      List.getElem?_eq_getElem hlt]
    cases tbl[ref] <;> rfl
  · rw [dif_neg (by omega), if_pos (by omega)]

/-- C7, amended.  A Major-0 unsigned integer read by `read_item` while the
stringref flag is pending and the stringref-table stack is non-empty (and no
item tag is also pending): if the value is below the innermost table's size,
the parser emits the stored text or byte string at that index through the
corresponding visitor callback (string value resp. byte-string value, tag
`none`) with no error; if it is at or above the size, it fails with
`stringref_too_large` and emits nothing. -/
theorem c7_stringref_resolution (f : Nat) (m : Machine) (c : Nat) (r : List Nat)
    (tbl : List MappedString) (tbls : List (List MappedString)) (val : Nat) (m1 : Machine)
    (hec : m.ec = none) (hin : m.input = c :: r) (hmaj : majorOf c = 0)
    (hstk : m.strefStack = tbl :: tbls) (hflag : m.strefFlag = true)
    (hitem : m.itemTagFlag = false)
    (hget : get_uint64_value m = (val, m1))
    (hec1 : m1.ec = none) (h64 : val < 2 ^ 64) :
    read_item (f + 1) m =
      if h : val < tbl.length then
        clearItemTag (emit { m1 with strefFlag := false }
          (match tbl.get ⟨val, h⟩ with
           | MappedString.text s => Event.stringValue s SemanticTag.none
           | MappedString.bytes bs => Event.byteStringValue bs SemanticTag.none))
      else errMore { m1 with strefFlag := false } CborErrc.stringref_too_large := by
  have hrt := read_tags_non_tag (f + 1) m c r hin (by rw [hmaj]; omega)
  have hpres := get_uint64_preserves m
  rw [hget] at hpres
  have hstk1 : m1.strefStack = tbl :: tbls := by simpa [hstk] using hpres.2.2.2.2.2.2.1
  have hflag1 : m1.strefFlag = true := by simpa [hflag] using hpres.1
  have hitem1 : m1.itemTagFlag = false := by simpa [hitem] using hpres.2.2.1
  simp only [read_item, hrt, hec, hin, hmaj]
  simp [hget, hec1, hstk1, hflag1, hitem1, Nat.mod_eq_of_lt h64]
  rcases Nat.lt_or_ge val tbl.length with hlt | hge
  · rw [dif_pos hlt, if_neg (by omega), if_neg (by omega), List.getElem?_eq_getElem hlt]
    cases tbl[val] <;> simp [handle_string, write_byte_string, clearItemTag, emit, errMore]
  · rw [dif_neg (by omega), if_pos (by omega)]

/-- Witness for `c7_stringref_resolution`: a machine holding one stored
text string "a", reading the backreference `0x00`. -/
theorem c7_stringref_resolution_witness :
    ((⟨true, false, false, 0, true, false, [], [[MappedString.text [97]]], 0, 1024,
        [0], [], none⟩ : Machine).strefFlag = true ∧ (0 : Nat) < 2 ^ 64) ∧
    (read_item 1 (⟨true, false, false, 0, true, false, [], [[MappedString.text [97]]], 0, 1024,
        [0], [], none⟩ : Machine)).events = [Event.stringValue [97] SemanticTag.none] := by
  refine ⟨⟨rfl, by decide⟩, ?_⟩
  have h := c7_stringref_resolution 0
    ⟨true, false, false, 0, true, false, [], [[MappedString.text [97]]], 0, 1024, [0], [], none⟩
    0 [] [MappedString.text [97]] [] 0
    ⟨true, false, false, 0, true, false, [], [[MappedString.text [97]]], 0, 1024, [], [], none⟩
    rfl rfl (by decide) rfl rfl rfl (by decide) rfl (by decide)
  rw [h, dif_pos (by decide)]
  decide

/-- C10.  A map key that is a CBOR byte string is read without error and
delivered through the `key` callback as the base64url text of its bytes —
both for a directly encoded definite-length byte-string key and for a
stringref backreference resolving to a stored byte string. -/
theorem c10_byte_string_map_keys :
    (∀ (f : Nat) (m : Machine) (n : Nat) (bs rest : List Nat),
        m.input = (64 + n) :: (bs ++ rest) → n < 24 → bs.length = n →
        (∀ b ∈ bs, b < 256) → m.strefStack = [] → m.ec = none →
        read_name (f + 2) m =
          { m with
              input := rest
              more := true
              events := m.events ++ [Event.key (encode_base64url bs)] }) ∧
    (∀ (f : Nat) (m : Machine) (c : Nat) (r : List Nat)
        (tbl : List MappedString) (tbls : List (List MappedString)) (ref : Nat)
        (m1 : Machine) (bs : List Nat),
        m.ec = none → m.input = c :: r → majorOf c = 0 →
        m.strefStack = tbl :: tbls → m.strefFlag = true →
        get_uint64_value { m with strefFlag := false } = (ref, m1) →
        m1.ec = none → ref < 2 ^ 64 →
        ∀ (hlt : ref < tbl.length), tbl.get ⟨ref, hlt⟩ = MappedString.bytes bs →
        read_name (f + 2) m = emit m1 (Event.key (encode_base64url bs))) := by
  constructor
  · exact fun f m n bs rest hin hn hlen hb hstr hec =>
      read_name_byte_string_key f m n bs rest hin hn hlen hb hstr hec
  · intro f m c r tbl tbls ref m1 bs hec hin hmaj hstk hflag hget hec1 h64 hlt hbs
    have h := read_name_backref_key f m c r tbl tbls ref m1 hec hin hmaj hstk hflag hget hec1 h64
    rw [dif_pos hlt] at h
    rw [h, hbs]

/-- Witness for `c10_byte_string_map_keys`: the direct byte-string key
`0x43 01 02 03` delivered as base64url "AQID". -/
theorem c10_byte_string_map_keys_witness :
    ((3 : Nat) < 24 ∧ ([1, 2, 3] : List Nat).length = 3) ∧
    read_name 2 (⟨false, false, false, 0, true, false, [], [], 0, 1024,
        (64 + 3) :: ([1, 2, 3] ++ []), [], none⟩ : Machine) =
      { (⟨false, false, false, 0, true, false, [], [], 0, 1024,
          (64 + 3) :: ([1, 2, 3] ++ []), [], none⟩ : Machine) with
          input := []
          more := true
          events := [] ++ [Event.key (encode_base64url [1, 2, 3])] } :=
  ⟨⟨by decide, by decide⟩,
    c10_byte_string_map_keys.1 0
      ⟨false, false, false, 0, true, false, [], [], 0, 1024,
        (64 + 3) :: ([1, 2, 3] ++ []), [], none⟩
      3 [1, 2, 3] [] rfl (by decide) (by decide) (by decide) rfl rfl⟩

theorem get_int64_pres (m : Machine) :
    (get_int64_value m).2.done = m.done ∧ (get_int64_value m).2.stack = m.stack := by
  have h := get_uint64_preserves m
  rcases hg : get_uint64_value m with ⟨v, m2⟩
  rw [hg] at h
  unfold get_int64_value
  rcases hin : m.input with _ | ⟨t, rest⟩
  · simp [errMore]
  · simp only [hg]
    repeat' split
    all_goals simp_all [errMore]

theorem get_double_pres (m : Machine) :
    (get_double m).2.done = m.done ∧ (get_double m).2.stack = m.stack := by
  unfold get_double
  rcases hin : m.input with _ | ⟨t, rest⟩
  · simp [errMore]
  · dsimp only
    split_ifs <;> simp_all [errMore]

theorem get_size_pres (m : Machine) :
    (get_size m).2.done = m.done ∧ (get_size m).2.stack = m.stack := by
  have h := get_uint64_preserves m
  rcases hg : get_uint64_value m with ⟨v, m2⟩
  rw [hg] at h
  unfold get_size
  simp only [hg]
  repeat' split
  all_goals simp_all [errMore]

theorem iterChunks_pres (fuel : Nat) :
    ∀ (ph : ChunkPhase) (m : Machine) (acc : List Nat) (lk : Bool),
      (iterChunks fuel ph m acc lk).2.2.done = m.done ∧
      (iterChunks fuel ph m acc lk).2.2.stack = m.stack := by
  induction fuel with
  | zero => intro ph m acc lk; cases ph <;> simp [iterChunks]
  | succ f ih =>
    intro ph m acc lk
    cases ph with
    | top =>
      have hgs := get_size_pres m
      rcases hg : get_size m with ⟨len, m2⟩
      rw [hg] at hgs
      unfold iterChunks
      rcases hin : m.input with _ | ⟨c, rest⟩
      · simp [errMore]
      · by_cases h31 : infoOf c = 31
        · simpa [h31] using ih ChunkPhase.loop _ acc lk
        · simp only [if_neg h31, hg]
          repeat' split
          all_goals simp_all [errMore]
    | loop =>
      unfold iterChunks
      rcases hin : m.input with _ | ⟨c, rest⟩
      · simp [errMore]
      · rcases hit : iterChunks f ChunkPhase.top m acc lk with ⟨acc1, lk1, m1⟩
        have h1 := ih ChunkPhase.top m acc lk
        rw [hit] at h1
        have h2 := ih ChunkPhase.loop m1 acc1 lk1
        simp only [hit]
        repeat' split
        all_goals simp_all

theorem read_text_string_pres (fuel : Nat) (m : Machine) :
    (read_text_string fuel m).2.done = m.done ∧ (read_text_string fuel m).2.stack = m.stack := by
  have h := iterChunks_pres fuel ChunkPhase.top m [] true
  rcases hit : iterChunks fuel ChunkPhase.top m [] true with ⟨s, lk, m1⟩
  rw [hit] at h
  unfold read_text_string
  rcases hin : m.input with _ | ⟨c, rest⟩
  · simp [errMore]
  · simp only [hit]
    repeat' split
    all_goals simp_all

theorem read_byte_string_pres (fuel : Nat) (m : Machine) :
    (read_byte_string fuel m).2.2.done = m.done ∧
    (read_byte_string fuel m).2.2.stack = m.stack := by
  have h := iterChunks_pres fuel ChunkPhase.top m [] true
  rcases hit : iterChunks fuel ChunkPhase.top m [] true with ⟨s, lk, m1⟩
  rw [hit] at h
  have hgs := get_size_pres m
  rcases hg : get_size m with ⟨len, m2⟩
  rw [hg] at hgs
  unfold read_byte_string
  rcases hin : m.input with _ | ⟨c, rest⟩
  · simp [errMore]
  · simp only [hit, hg]
    repeat' split
    all_goals simp_all

theorem read_tags_pres (fuel : Nat) :
    ∀ m : Machine, (read_tags fuel m).done = m.done ∧ (read_tags fuel m).stack = m.stack := by
  induction fuel with
  | zero => intro m; simp [read_tags]
  | succ f ih =>
    intro m
    have h := get_uint64_preserves m
    rcases hg : get_uint64_value m with ⟨v, m2⟩
    rw [hg] at h
    unfold read_tags
    rcases hin : m.input with _ | ⟨c, rest⟩
    · simp [errMore]
    · simp only [hg]
      repeat' split
      all_goals simp_all [ih m2, ih { m2 with strefFlag := true },
        ih { m2 with strefNsFlag := true }, ih { m2 with itemTagFlag := true, itemTagVal := v }]

theorem write_byte_string_pres (readFn : Machine → List Nat × Machine) (m : Machine)
    (hr : ∀ mm : Machine, (readFn mm).2.done = mm.done) :
    (write_byte_string readFn m).done = m.done := by
  have h := hr m
  rcases hf : readFn m with ⟨v, m1⟩
  rw [hf] at h
  unfold write_byte_string
  simp only [hf]
  repeat' split
  all_goals simp_all [emit, clearItemTag]

theorem begin_array_pres (m : Machine) (info : Nat) :
    (begin_array m info).done = m.done := by
  have h := get_size_pres { m with depth := m.depth + 1 }
  rcases hg : get_size { m with depth := m.depth + 1 } with ⟨len, m2⟩
  rw [hg] at h
  have h2 := get_size_pres { m with depth := m.depth + 1, strefStack := [] :: m.strefStack, strefNsFlag := false }
  rcases hg2 : get_size { m with depth := m.depth + 1, strefStack := [] :: m.strefStack, strefNsFlag := false } with ⟨len2, m3⟩
  rw [hg2] at h2
  unfold begin_array
  by_cases hns : m.strefNsFlag = true <;>
    simp only [hns, Bool.false_eq_true, if_true, if_false] <;>
    (repeat' split) <;>
    simp_all [emit, errMore]

theorem begin_object_pres (m : Machine) (info : Nat) :
    (begin_object m info).done = m.done := by
  have h := get_size_pres { m with depth := m.depth + 1 }
  rcases hg : get_size { m with depth := m.depth + 1 } with ⟨len, m2⟩
  rw [hg] at h
  have h2 := get_size_pres { m with depth := m.depth + 1, strefStack := [] :: m.strefStack, strefNsFlag := false }
  rcases hg2 : get_size { m with depth := m.depth + 1, strefStack := [] :: m.strefStack, strefNsFlag := false } with ⟨len2, m3⟩
  rw [hg2] at h2
  unfold begin_object
  by_cases hns : m.strefNsFlag = true <;>
    simp only [hns, Bool.false_eq_true, if_true, if_false] <;>
    (repeat' split) <;>
    simp_all [emit, errMore]

theorem end_array_pres (m : Machine) : (end_array m).done = m.done := by
  unfold end_array
  rcases hstk : m.stack with _ | ⟨fr, rest⟩
  · simp [emit]
  · by_cases hp : fr.pop_stringref_map_stack = true <;> simp [emit, hp]

theorem end_object_pres (m : Machine) : (end_object m).done = m.done := by
  unfold end_object
  rcases hstk : m.stack with _ | ⟨fr, rest⟩
  · simp [emit]
  · by_cases hp : fr.pop_stringref_map_stack = true <;> simp [emit, hp]

theorem read_shape_loop_pres (fuel : Nat) :
    ∀ (m : Machine) (shape : List Nat),
      (read_shape_loop fuel m shape).2.done = m.done := by
  induction fuel with
  | zero => intro m shape; simp [read_shape_loop]
  | succ f ih =>
    intro m shape
    have hgs := get_size_pres m
    rcases hg : get_size m with ⟨len, m2⟩
    rw [hg] at hgs
    unfold read_shape_loop
    rcases hin : m.input with _ | ⟨c, rest⟩
    · simp [errMore]
    · simp only [hg]
      repeat' split
      all_goals simp_all [ih]

theorem read_shape_n_pres (k : Nat) :
    ∀ (m : Machine) (shape : List Nat), (read_shape_n k m shape).2.done = m.done := by
  induction k with
  | zero => intro m shape; simp [read_shape_n]
  | succ j ih =>
    intro m shape
    have hgs := get_size_pres m
    rcases hg : get_size m with ⟨len, m2⟩
    rw [hg] at hgs
    unfold read_shape_n
    simp only [hg]
    repeat' split
    all_goals simp_all [ih]

theorem read_shape_pres (fuel : Nat) (m : Machine) (info : Nat) :
    (read_shape fuel m info).2.done = m.done := by
  have hgs := get_size_pres m
  rcases hg : get_size m with ⟨len, m2⟩
  rw [hg] at hgs
  unfold read_shape
  simp only [hg]
  repeat' split
  all_goals simp_all [read_shape_loop_pres, read_shape_n_pres]

theorem produce_begin_multi_dim_pres (fuel : Nat) (m : Machine) (tag : SemanticTag) :
    (produce_begin_multi_dim fuel m tag).done = m.done := by
  unfold produce_begin_multi_dim
  rcases hin : m.input with _ | ⟨c, rest⟩
  · simp [errMore]
  · have h := read_shape_pres fuel { m with input := rest } (infoOf c)
    rcases hr : read_shape fuel { m with input := rest } (infoOf c) with ⟨shape, m2⟩
    rw [hr] at h
    simp only [hr]
    repeat' split
    all_goals simp_all [emit]

theorem produce_end_multi_dim_pres (m : Machine) :
    (produce_end_multi_dim m).done = m.done := by
  simp [produce_end_multi_dim, emit]

theorem get_uint64_done (m : Machine) : (get_uint64_value m).2.done = m.done :=
  (get_uint64_preserves m).2.2.2.2.1

theorem get_int64_done (m : Machine) : (get_int64_value m).2.done = m.done :=
  (get_int64_pres m).1

theorem get_size_done (m : Machine) : (get_size m).2.done = m.done :=
  (get_size_pres m).1

theorem get_double_done (m : Machine) : (get_double m).2.done = m.done :=
  (get_double_pres m).1

theorem read_byte_string_done (fuel : Nat) (m : Machine) :
    (read_byte_string fuel m).2.2.done = m.done :=
  (read_byte_string_pres fuel m).1

theorem decimal_tail_done (fuel : Nat) (m0 m1 : Machine) (expo : Int)
    (hd : m1.done = m0.done) :
    (if m1.ec.isSome = true then ([], m1)
     else
      (let c2 := match m1.input with | [] => 255 | d :: _ => d % 256
       if majorOf c2 = 0 then
         let (v, m2) := get_uint64_value m1
         if m2.ec.isSome = true then ([], m2) else (finishDec (natToDecimal v) expo, m2)
       else if majorOf c2 = 1 then
         let (v, m2) := get_int64_value m1
         if m2.ec.isSome = true then ([], m2) else (finishDec (intToDecimal v) expo, m2)
       else if majorOf c2 = 6 then
         match m1.input with
         | [] => ([], errMore m1 CborErrc.unexpected_eof)
         | d :: rest2 =>
           let tagv := infoOf d
           let m2 := { m1 with input := rest2 }
           match m2.input with
           | [] => ([], errMore m2 CborErrc.unexpected_eof)
           | e :: _ =>
             if majorOf e = 2 then
               let (_, v, m3) := read_byte_string fuel m2
               if m3.ec.isSome = true then ([], { m3 with more := false })
               else
                 let s :=
                   if tagv = 2 then bignumDumpDec 1 v
                   else if tagv = 3 then bignumDumpDec (-1) v
                   else []
                 (finishDec s expo, m3)
             else (finishDec [] expo, m2)
       else ([], errMore m1 CborErrc.invalid_bigdec))).2.done = m0.done := by
  by_cases hec : m1.ec.isSome = true
  · simp [hec, hd]
  · simp only [hec, if_false, Bool.false_eq_true]
    rcases him : m1.input with _ | ⟨d, r2⟩
    · simp [majorOf, errMore, hd]
    · rcases hg : get_uint64_value m1 with ⟨v, m2⟩
      have hd2 : m2.done = m0.done := by
        have h := get_uint64_done m1
        rw [hg] at h
        simp at h
        rw [h, hd]
      rcases hgi : get_int64_value m1 with ⟨vi, m2i⟩
      have hdi : m2i.done = m0.done := by
        have h := get_int64_done m1
        rw [hgi] at h
        simp at h
        rw [h, hd]
      dsimp only
      by_cases h0 : majorOf (d % 256) = 0
      · rw [if_pos h0]
        split <;> simp [hd2]
      · rw [if_neg h0]
        by_cases h1 : majorOf (d % 256) = 1
        · rw [if_pos h1]
          split <;> simp [hdi]
        · rw [if_neg h1]
          by_cases h6 : majorOf (d % 256) = 6
          · rw [if_pos h6]
            rcases hr2 : r2 with _ | ⟨e, r3⟩
            · simp [errMore, hd]
            · dsimp only
              rcases hbs : read_byte_string fuel { m1 with input := e :: r3 } with ⟨lk, v3, m3⟩
              have hd3 : m3.done = m0.done := by
                have h := read_byte_string_done fuel { m1 with input := e :: r3 }
                rw [hbs] at h
                simp at h
                rw [h, hd]
              by_cases he2 : majorOf e = 2
              · rw [if_pos he2]
                split <;> simp [hd3]
              · rw [if_neg he2]
                simp [hd]
          · rw [if_neg h6]
            simp [errMore, hd]

theorem read_array_as_decimal_pres (fuel : Nat) (m0 : Machine) :
    (read_array_as_decimal_string fuel m0).2.done = m0.done := by
  unfold read_array_as_decimal_string
  rcases hin : m0.input with _ | ⟨h0, rest0⟩
  · simp [errMore]
  · dsimp only
    rcases hr0 : rest0 with _ | ⟨c, r1⟩
    · simp [errMore]
    · dsimp only
      rcases hg : get_uint64_value { m0 with input := c :: r1 } with ⟨v, m2⟩
      have hd : m2.done = m0.done := by
        have := get_uint64_done { m0 with input := c :: r1 }
        rw [hg] at this; simpa using this
      rcases hgi : get_int64_value { m0 with input := c :: r1 } with ⟨vi, m2i⟩
      have hdi : m2i.done = m0.done := by
        have := get_int64_done { m0 with input := c :: r1 }
        rw [hgi] at this; simpa using this
      by_cases hc0 : majorOf c = 0 <;> by_cases hc1 : majorOf c = 1 <;>
        simp only [hc0, hc1, if_true, if_false, hg, hgi, reduceIte] <;>
        first
        | (exact absurd (hc0.symm.trans hc1) (by decide))
        | (apply decimal_tail_done <;> assumption)
        | (simp [errMore])

theorem hexfloat_tail_done (fuel : Nat) (m0 m1 : Machine) (expo : Int)
    (hd : m1.done = m0.done) :
    (if m1.ec.isSome = true then ([], m1)
     else
     let c2 := match m1.input with | [] => 255 | d :: _ => d % 256
     let (s, m2) :=
       if majorOf c2 = 0 then
         let (v, m2) := get_uint64_value m1
         ([48, 120] ++ natToHex v, m2)
       else if majorOf c2 = 1 then
         let (v, m2) := get_int64_value m1
         ([45, 48, 120] ++ natToHex (toUint64 (-v)), m2)
       else if majorOf c2 = 6 then
         match m1.input with
         | [] => ([], errMore m1 CborErrc.unexpected_eof)
         | d :: rest2 =>
           let tagv := infoOf d
           let m2 := { m1 with input := rest2 }
           match m2.input with
           | [] => ([], errMore m2 CborErrc.unexpected_eof)
           | e :: _ =>
             if majorOf e = 2 then
               let (lk, v, m3) := read_byte_string fuel m2
               let m3 := { m3 with more := lk }
               if lk = false then ([], m3)
               else
                 if tagv = 2 then ([45, 48, 120] ++ bignumDumpHex 1 v, m3)
                 else if tagv = 3 then (([45, 48] ++ bignumDumpHex (-1) v).set 2 120, m3)
                 else ([], m3)
             else ([], m2)
       else ([], errMore m1 CborErrc.invalid_bigfloat)
     if m2.ec.isSome = true then ([], m2)
     else
       (s ++ [112] ++
         (if 0 ≤ expo then natToHex expo.toNat else 45 :: natToHex (toUint64 (-expo))),
         m2)).2.done = m0.done := by
  by_cases hec : m1.ec.isSome = true
  · simp [hec, hd]
  · simp only [hec, if_false, Bool.false_eq_true]
    rcases him : m1.input with _ | ⟨d, r2⟩
    · simp [majorOf, errMore, hd]
    · rcases hg : get_uint64_value m1 with ⟨v, m2⟩
      have hd2 : m2.done = m0.done := by
        have h := get_uint64_done m1
        rw [hg] at h
        simp at h
        rw [h, hd]
      rcases hgi : get_int64_value m1 with ⟨vi, m2i⟩
      have hdi : m2i.done = m0.done := by
        have h := get_int64_done m1
        rw [hgi] at h
        simp at h
        rw [h, hd]
      dsimp only
      by_cases h0 : majorOf (d % 256) = 0
      · rw [if_pos h0]
        split <;> simp [hd2]
      · rw [if_neg h0]
        by_cases h1 : majorOf (d % 256) = 1
        · rw [if_pos h1]
          split <;> simp [hdi]
        · rw [if_neg h1]
          by_cases h6 : majorOf (d % 256) = 6
          · rw [if_pos h6]
            rcases hr2 : r2 with _ | ⟨e, r3⟩
            · simp [errMore, hd]
            · dsimp only
              rcases hbs : read_byte_string fuel { m1 with input := e :: r3 } with ⟨lk, v3, m3⟩
              have hd3 : m3.done = m0.done := by
                have h := read_byte_string_done fuel { m1 with input := e :: r3 }
                rw [hbs] at h
                simp at h
                rw [h, hd]
              by_cases he2 : majorOf e = 2
              · rw [if_pos he2]
                by_cases hlk : lk = false
                · simp only [hlk, reduceIte]
                  split <;> simp [hd3]
                · rw [if_neg hlk]
                  repeat' split
                  all_goals simp [hd3]
              · rw [if_neg he2]
                split <;> simp [hd]
          · rw [if_neg h6]
            split <;> simp [errMore, hd]

theorem read_array_as_hexfloat_pres (fuel : Nat) (m0 : Machine) :
    (read_array_as_hexfloat_string fuel m0).2.done = m0.done := by
  unfold read_array_as_hexfloat_string
  rcases hin : m0.input with _ | ⟨h0, rest0⟩
  · simp [errMore]
  · dsimp only
    rcases hr0 : rest0 with _ | ⟨c, r1⟩
    · simp [errMore]
    · dsimp only
      rcases hg : get_uint64_value { m0 with input := c :: r1 } with ⟨v, m2⟩
      have hd : m2.done = m0.done := by
        have := get_uint64_done { m0 with input := c :: r1 }
        rw [hg] at this; simpa using this
      rcases hgi : get_int64_value { m0 with input := c :: r1 } with ⟨vi, m2i⟩
      have hdi : m2i.done = m0.done := by
        have := get_int64_done { m0 with input := c :: r1 }
        rw [hgi] at this; simpa using this
      by_cases hc0 : majorOf c = 0 <;> by_cases hc1 : majorOf c = 1 <;>
        simp only [hc0, hc1, if_true, if_false, hg, hgi, reduceIte] <;>
        first
        | (exact absurd (hc0.symm.trans hc1) (by decide))
        | (apply hexfloat_tail_done <;> assumption)
        | (simp [errMore])

theorem read_text_string_done (fuel : Nat) (m : Machine) :
    (read_text_string fuel m).2.done = m.done :=
  (read_text_string_pres fuel m).1

theorem read_tags_done (fuel : Nat) (m : Machine) :
    (read_tags fuel m).done = m.done :=
  (read_tags_pres fuel m).1

set_option maxHeartbeats 2000000 in
theorem read_item_done (fuel : Nat) (m0 : Machine) :
    (read_item fuel m0).done = m0.done := by
  unfold read_item
  generalize hrt : read_tags fuel m0 = mt
  have hrtd : mt.done = m0.done := by rw [← hrt]; exact read_tags_done fuel m0
  by_cases hec : mt.ec.isSome = true
  · simp [hec, hrtd]
  · simp only [hec, Bool.false_eq_true, if_false]
    rcases hin : mt.input with _ | ⟨c, r⟩
    · simp [errMore, hrtd]
    · rcases hg : get_uint64_value mt with ⟨v, m1⟩
      have hd1 : m1.done = m0.done := by
        have h := get_uint64_done mt; rw [hg] at h; simp at h; rw [h, hrtd]
      rcases hgi : get_int64_value mt with ⟨vi, m1i⟩
      have hdi : m1i.done = m0.done := by
        have h := get_int64_done mt; rw [hgi] at h; simp at h; rw [h, hrtd]
      rcases hgd : get_double mt with ⟨wb, m1d⟩
      have hdd : m1d.done = m0.done := by
        have h := get_double_done mt; rw [hgd] at h; simp at h; rw [h, hrtd]
      rcases hts : read_text_string fuel mt with ⟨sx, m1t⟩
      have hdt : m1t.done = m0.done := by
        have h := read_text_string_done fuel mt; rw [hts] at h; simp at h; rw [h, hrtd]
      rcases hdec : read_array_as_decimal_string fuel mt with ⟨sd, m1dec⟩
      have hddec : m1dec.done = m0.done := by
        have h := read_array_as_decimal_pres fuel mt; rw [hdec] at h; simp at h; rw [h, hrtd]
      rcases hhex : read_array_as_hexfloat_string fuel mt with ⟨sh, m1hex⟩
      have hdhex : m1hex.done = m0.done := by
        have h := read_array_as_hexfloat_pres fuel mt; rw [hhex] at h; simp at h; rw [h, hrtd]
      simp only [hg, hgi, hgd, hts, hdec, hhex]
      repeat' split
      all_goals
        simp_all [emit, clearItemTag, errMore, handle_string,
          begin_array_pres, begin_object_pres, produce_begin_multi_dim_pres,
          write_byte_string_pres, read_byte_string_done]
      all_goals (split <;> simp_all)

set_option maxHeartbeats 2000000 in
theorem read_item_clears_item_tag (fuel : Nat) (m0 : Machine) :
    (read_item fuel m0).ec = none → (read_item fuel m0).itemTagFlag = false := by
  unfold read_item
  generalize hrt : read_tags fuel m0 = mt
  by_cases hec : mt.ec.isSome = true
  · simp only [hec, if_true]
    intro h
    rw [h] at hec
    simp at hec
  · simp only [hec, Bool.false_eq_true, if_false]
    rcases hin : mt.input with _ | ⟨c, r⟩
    · simp [errMore]
    · rcases hg : get_uint64_value mt with ⟨v, m1⟩
      rcases hgi : get_int64_value mt with ⟨vi, m1i⟩
      rcases hgd : get_double mt with ⟨wb, m1d⟩
      rcases hts : read_text_string fuel mt with ⟨sx, m1t⟩
      rcases hdec : read_array_as_decimal_string fuel mt with ⟨sd, m1dec⟩
      rcases hhex : read_array_as_hexfloat_string fuel mt with ⟨sh, m1hex⟩
      simp only [hg, hgi, hgd, hts, hdec, hhex]
      repeat' split
      all_goals simp_all [emit, clearItemTag, errMore, handle_string]
      all_goals (intro h; simp_all)

set_option maxHeartbeats 1000000 in
theorem read_name_pres (fuel : Nat) (m : Machine) :
    (read_name fuel m).done = m.done ∧ (read_name fuel m).stack = m.stack := by
  cases fuel with
  | zero => simp [read_name, runAux]
  | succ f =>
    unfold read_name runAux
    generalize hrt : read_tags f m = mt
    have hp : mt.done = m.done ∧ mt.stack = m.stack := by
      rw [← hrt]; exact read_tags_pres f m
    by_cases hec : mt.ec.isSome = true
    · simp [hec, hp.1, hp.2]
    · simp only [hec, Bool.false_eq_true, if_false]
      rcases hin : mt.input with _ | ⟨c, r⟩
      · simp [errMore, hp.1, hp.2]
      · rcases hts : read_text_string f mt with ⟨sx, m1t⟩
        have ht : m1t.done = m.done ∧ m1t.stack = m.stack := by
          have h := read_text_string_pres f mt
          rw [hts] at h
          simp at h
          exact ⟨h.1.trans hp.1, h.2.trans hp.2⟩
        rcases hbs : read_byte_string f mt with ⟨lk, v3, m1b⟩
        have hb : m1b.done = m.done ∧ m1b.stack = m.stack := by
          have h := read_byte_string_pres f mt
          rw [hbs] at h
          simp at h
          exact ⟨h.1.trans hp.1, h.2.trans hp.2⟩
        rcases hgu : get_uint64_value { mt with strefFlag := false } with ⟨ref, m3⟩
        have hu : m3.done = m.done ∧ m3.stack = m.stack := by
          have h := get_uint64_preserves { mt with strefFlag := false }
          rw [hgu] at h
          exact ⟨by simpa [hp.1] using h.2.2.2.2.1, by simpa [hp.2] using h.2.2.2.2.2.1⟩
        simp only [hts, hbs, hgu]
        repeat' split
        all_goals simp_all [emit, errMore]

theorem end_array_keeps (m : Machine) :
    (end_array m).ec = m.ec ∧ (end_array m).itemTagFlag = m.itemTagFlag ∧
    (end_array m).done = m.done := by
  unfold end_array
  rcases hstk : m.stack with _ | ⟨fr, rest⟩
  · simp [emit]
  · by_cases hp : fr.pop_stringref_map_stack = true <;> simp [emit, hp]

theorem end_object_keeps (m : Machine) :
    (end_object m).ec = m.ec ∧ (end_object m).itemTagFlag = m.itemTagFlag ∧
    (end_object m).done = m.done := by
  unfold end_object
  rcases hstk : m.stack with _ | ⟨fr, rest⟩
  · simp [emit]
  · by_cases hp : fr.pop_stringref_map_stack = true <;> simp [emit, hp]

theorem produce_end_multi_dim_keeps (m : Machine) :
    (produce_end_multi_dim m).ec = m.ec ∧
    (produce_end_multi_dim m).itemTagFlag = m.itemTagFlag ∧
    (produce_end_multi_dim m).done = m.done := by
  simp [produce_end_multi_dim, emit]

theorem runAux_done_stable (fuel : Nat) (m : Machine) (h : m.done = true) :
    runAux fuel RunKind.parseDriver m = m := by
  cases fuel with
  | zero => rfl
  | succ f => simp [runAux, h]

theorem parse_loop_item_tag (fuel : Nat) :
    ∀ m : Machine, m.ec = none → m.done = false →
      (m.itemTagFlag = false ∨ pendingKeyTop m) →
      (runAux fuel RunKind.parseDriver m).done = true →
      (runAux fuel RunKind.parseDriver m).itemTagFlag = false := by
  induction fuel with
  | zero =>
    intro m hec hd _ hdone
    simp only [runAux] at hdone
    exact absurd hdone (by simp [hd])
  | succ f ih =>
    intro m hec hd hinv
    unfold runAux
    by_cases hmore : m.more = false
    · rw [if_pos (Or.inr hmore)]
      intro hdone
      exact absurd hdone (by simp [hd])
    · rw [if_neg (not_or.mpr ⟨by simp [hd], hmore⟩)]
      rcases hstk : m.stack with _ | ⟨fr, rest⟩
      · intro hdone
        exact absurd hdone (by simp [hd])
      · rcases fr with ⟨mode, len, idx, pop⟩
        have hflat : m.itemTagFlag = false ∨
            (mode = ParseMode.map_value ∨ mode = ParseMode.indefinite_map_value) := by
          rcases hinv with h | h
          · exact Or.inl h
          · unfold pendingKeyTop at h
            rw [hstk] at h
            exact Or.inr h
        cases mode <;> dsimp only
        · -- root
          generalize hri : read_item f
            { m with stack := ⟨ParseMode.before_done, len, idx, pop⟩ :: rest } = r2
          have hrd : r2.done = false := by
            rw [← hri, read_item_done]; exact hd
          by_cases hre : r2.ec.isSome = true
          · simp only [hre, if_true]
            intro hdone
            exact absurd hdone (by simp [hrd])
          · simp only [hre, Bool.false_eq_true, if_false]
            refine ih r2 (by simpa using hre) hrd (Or.inl ?_)
            rw [← hri]
            exact read_item_clears_item_tag f _ (by rw [hri]; simpa using hre)
        · -- before_done
          rw [runAux_done_stable f _ rfl]
          intro _
          simp only [emitFlush]
          rcases hflat with h | h
          · exact h
          · rcases h with h | h <;> cases h
        · -- array
          by_cases hlt : idx < len
          · simp only [hlt, if_true]
            generalize hri : read_item f
              { m with stack := ⟨ParseMode.array, len, idx + 1, pop⟩ :: rest } = r2
            have hrd : r2.done = false := by
              rw [← hri, read_item_done]; exact hd
            by_cases hre : r2.ec.isSome = true
            · simp only [hre, if_true]
              intro hdone
              exact absurd hdone (by simp [hrd])
            · simp only [hre, Bool.false_eq_true, if_false]
              refine ih r2 (by simpa using hre) hrd (Or.inl ?_)
              rw [← hri]
              exact read_item_clears_item_tag f _ (by rw [hri]; simpa using hre)
          · simp only [hlt, if_false]
            have hk := end_array_keeps m
            have hflag : m.itemTagFlag = false := by
              rcases hflat with h | h
              · exact h
              · rcases h with h | h <;> cases h
            refine ih (end_array m) (hk.1.trans hec) (hk.2.2.trans hd)
              (Or.inl (hk.2.1.trans hflag))
        · -- indefinite_array
          rcases hin : m.input with _ | ⟨c, r⟩
          · intro hdone
            simp only [errMore] at hdone
            exact absurd hdone (by simp [hd])
          · by_cases hff : c % 256 = 0xff
            · simp only [hff, if_pos rfl]
              have hk := end_array_keeps
                { m with stack := ⟨ParseMode.indefinite_array, len, idx, pop⟩ :: rest, input := r }
              have hflag : m.itemTagFlag = false := by
                rcases hflat with h | h
                · exact h
                · rcases h with h | h <;> cases h
              generalize hre2 : end_array
                { m with stack := ⟨ParseMode.indefinite_array, len, idx, pop⟩ :: rest, input := r } = r1
              rw [hre2] at hk
              by_cases hre : r1.ec.isSome = true
              · simp only [hre, if_true]
                intro hdone
                rw [hdone] at hk
                simp [hd] at hk
              · simp only [hre, Bool.false_eq_true, if_false]
                exact ih r1 (by simpa using hre) (hk.2.2.trans hd)
                  (Or.inl (hk.2.1.trans hflag))
            · simp only [hff, if_false]
              generalize hri : read_item f m = r2
              have hrd : r2.done = false := by
                rw [← hri, read_item_done]; exact hd
              by_cases hre : r2.ec.isSome = true
              · simp only [hre, if_true]
                intro hdone
                rw [hdone] at hrd
                cases hrd
              · simp only [hre, Bool.false_eq_true, if_false]
                refine ih r2 (by simpa using hre) hrd (Or.inl ?_)
                rw [← hri]
                exact read_item_clears_item_tag f _ (by rw [hri]; simpa using hre)
        · -- map_key
          by_cases hlt : idx < len
          · simp only [hlt, if_true]
            generalize hrn : runAux f RunKind.nameReader
              { m with stack := ⟨ParseMode.map_key, len, idx + 1, pop⟩ :: rest } = r2
            have hrp : r2.done = false ∧
                r2.stack = ⟨ParseMode.map_key, len, idx + 1, pop⟩ :: rest := by
              have h := read_name_pres f
                { m with stack := ⟨ParseMode.map_key, len, idx + 1, pop⟩ :: rest }
              unfold read_name at h
              rw [hrn] at h
              exact ⟨h.1.trans hd, h.2⟩
            by_cases hre : r2.ec.isSome = true
            · simp only [hre, if_true]
              intro hdone
              rw [hdone] at hrp
              simp [hd] at hrp
            · simp only [hre, Bool.false_eq_true, if_false]
              rw [hrp.2]
              refine ih _ (by simpa using hre) (by simpa using hrp.1) (Or.inr ?_)
              unfold pendingKeyTop
              simp
          · simp only [hlt, if_false]
            have hk := end_object_keeps m
            have hflag : m.itemTagFlag = false := by
              rcases hflat with h | h
              · exact h
              · rcases h with h | h <;> cases h
            refine ih (end_object m) (hk.1.trans hec) (hk.2.2.trans hd)
              (Or.inl (hk.2.1.trans hflag))
        · -- map_value
          generalize hri : read_item f
            { m with stack := ⟨ParseMode.map_key, len, idx, pop⟩ :: rest } = r2
          have hrd : r2.done = false := by
            rw [← hri, read_item_done]; exact hd
          by_cases hre : r2.ec.isSome = true
          · simp only [hre, if_true]
            intro hdone
            exact absurd hdone (by simp [hrd])
          · simp only [hre, Bool.false_eq_true, if_false]
            refine ih r2 (by simpa using hre) hrd (Or.inl ?_)
            rw [← hri]
            exact read_item_clears_item_tag f _ (by rw [hri]; simpa using hre)
        · -- indefinite_map_key
          rcases hin : m.input with _ | ⟨c, r⟩
          · intro hdone
            simp only [errMore] at hdone
            exact absurd hdone (by simp [hd])
          · by_cases hff : c % 256 = 0xff
            · simp only [hff, if_pos rfl]
              have hk := end_object_keeps
                { m with stack := ⟨ParseMode.indefinite_map_key, len, idx, pop⟩ :: rest, input := r }
              have hflag : m.itemTagFlag = false := by
                rcases hflat with h | h
                · exact h
                · rcases h with h | h <;> cases h
              generalize hre2 : end_object
                { m with stack := ⟨ParseMode.indefinite_map_key, len, idx, pop⟩ :: rest, input := r } = r1
              rw [hre2] at hk
              by_cases hre : r1.ec.isSome = true
              · simp only [hre, if_true]
                intro hdone
                rw [hdone] at hk
                simp [hd] at hk
              · simp only [hre, Bool.false_eq_true, if_false]
                exact ih r1 (by simpa using hre) (hk.2.2.trans hd)
                  (Or.inl (hk.2.1.trans hflag))
            · simp only [hff, if_false]
              generalize hrn : runAux f RunKind.nameReader m = r2
              have hrp : r2.done = false ∧
                  r2.stack = ⟨ParseMode.indefinite_map_key, len, idx, pop⟩ :: rest := by
                have h := read_name_pres f m
                unfold read_name at h
                rw [hrn] at h
                exact ⟨h.1.trans hd, h.2.trans hstk⟩
              by_cases hre : r2.ec.isSome = true
              · simp only [hre, if_true]
                intro hdone
                rw [hdone] at hrp
                simp [hd] at hrp
              · simp only [hre, Bool.false_eq_true, if_false]
                rw [hrp.2]
                refine ih _ (by simpa using hre) (by simpa using hrp.1) (Or.inr ?_)
                unfold pendingKeyTop
                simp
        · -- indefinite_map_value
          generalize hri : read_item f
            { m with stack := ⟨ParseMode.indefinite_map_key, len, idx, pop⟩ :: rest } = r2
          have hrd : r2.done = false := by
            rw [← hri, read_item_done]; exact hd
          by_cases hre : r2.ec.isSome = true
          · simp only [hre, if_true]
            intro hdone
            exact absurd hdone (by simp [hrd])
          · simp only [hre, Bool.false_eq_true, if_false]
            refine ih r2 (by simpa using hre) hrd (Or.inl ?_)
            rw [← hri]
            exact read_item_clears_item_tag f _ (by rw [hri]; simpa using hre)
        · -- multi_dim
          by_cases h0 : idx = 0
          · simp only [h0, if_pos rfl]
            generalize hri : read_item f
              { m with stack := ⟨ParseMode.multi_dim, len, 0 + 1, pop⟩ :: rest } = r2
            have hrd : r2.done = false := by
              rw [← hri, read_item_done]; exact hd
            by_cases hre : r2.ec.isSome = true
            · simp only [hre, if_true]
              intro hdone
              exact absurd hdone (by simp [hrd])
            · simp only [hre, Bool.false_eq_true, if_false]
              refine ih r2 (by simpa using hre) hrd (Or.inl ?_)
              rw [← hri]
              exact read_item_clears_item_tag f _ (by rw [hri]; simpa using hre)
          · simp only [h0, if_false]
            have hk := produce_end_multi_dim_keeps m
            have hflag : m.itemTagFlag = false := by
              rcases hflat with h | h
              · exact h
              · rcases h with h | h <;> cases h
            refine ih (produce_end_multi_dim m) (hk.1.trans hec) (hk.2.2.trans hd)
              (Or.inl (hk.2.1.trans hflag))


/-- C8 (amended).  After a completed `parse` call the pending `item_tag`
record is always cleared: whenever the parse loop on a freshly initialised
machine reports done, `itemTagFlag` is false, for any input bytes, any fuel
and any nesting-depth limit. -/
theorem c8_item_tag_clear_after_parse (fuel : Nat) (maxd : Int)
    (input : List Nat)
    (hdone : (parseLoop fuel (initMachine maxd input)).done = true) :
    (parseLoop fuel (initMachine maxd input)).itemTagFlag = false :=
  parse_loop_item_tag fuel (initMachine maxd input) rfl rfl (Or.inl rfl) hdone

/-- Witness for C8: parsing the bignum `C2 41 01` (which sets the pending
item tag mid-item) completes, and the completed machine has the tag flag
cleared. -/
theorem c8_item_tag_clear_after_parse_witness :
    (parseLoop 8 (initMachine 1024 [0xC2, 0x41, 0x01])).done = true ∧
    (parseLoop 8 (initMachine 1024 [0xC2, 0x41, 0x01])).itemTagFlag = false :=
  ⟨by decide, c8_item_tag_clear_after_parse 8 1024 [0xC2, 0x41, 0x01] (by decide)⟩

end JsonconsCbor
